import Mathlib

/-!
Verification of the DMS master control plane (`src/control_plane/dms_master/`).

The Python source is shallowly embedded: Pydantic models become structures,
the orchestrator's mutable state (`DMSMaster`) becomes a `Master` record, and
each coroutine becomes a pure state-transforming function (metadata-store
writes do not affect in-memory state and are elided; `datetime.utcnow()` is
threaded as an explicit `now : Nat` argument).  Python `dict`s are association
lists in insertion order: updating an existing key keeps its position, adding
a new key appends, and `pop` removes the key — exactly CPython's ordered-dict
semantics.
-/

namespace DMS

/-! ### String utilities

Python compares strings lexicographically by code point; `sorted` is a stable
sort.  Lean's built-in `String` order does not reduce in the kernel, so the
comparison is re-implemented over the underlying character lists.
-/

/-- Code-point comparison of characters (Python `<` on single characters). -/
def charLtB (a b : Char) : Bool := a.toNat < b.toNat

/-- Lexicographic strict order on character lists (Python string `<`). -/
def strLtAux : List Char → List Char → Bool
  | [], [] => false
  | [], _ :: _ => true
  | _ :: _, [] => false
  | a :: as, b :: bs =>
      if charLtB a b then true
      else if charLtB b a then false
      else strLtAux as bs

/-- Python string `<=`. -/
def strLeB (a b : String) : Bool := a == b || strLtAux a.data b.data

/-- `a` starts with `p` (over character lists; Python `str.startswith`). -/
def strStartsWith (a p : String) : Bool :=
  List.isPrefixOf p.data a.data

/-! ### POSIX pure paths

`_path_in_mount` in `server.py` compares `pathlib.PurePosixPath` values.
A `PurePosixPath` normalises to a root (`""`, `"/"` or `"//"`) plus the list
of non-empty, non-`"."` components; equality and `parents` work on that
normal form.
-/

/-- Split a string on `'/'` (Python `str.split("/")`). -/
def splitSlashAux : List Char → List Char → List String
  | [], cur => [String.mk cur.reverse]
  | c :: cs, cur =>
      if c = '/' then String.mk cur.reverse :: splitSlashAux cs []
      else splitSlashAux cs (c :: cur)

/-- The normal form of a `PurePosixPath`: root plus component list. -/
structure PurePath where
  root : String
  parts : List String
  deriving DecidableEq, Repr

/-- The root of a POSIX path: exactly two leading slashes are kept as `"//"`
(implementation-defined POSIX root, preserved by `pathlib`); one or three-plus
collapse to `"/"`. -/
def pathRoot (s : String) : String :=
  match s.data with
  | '/' :: '/' :: '/' :: _ => "/"
  | '/' :: '/' :: _ => "//"
  | '/' :: _ => "/"
  | _ => ""

/-- Parse a string into `PurePosixPath` normal form: empty and `"."`
components are dropped. -/
def parsePath (s : String) : PurePath :=
  { root := pathRoot s,
    parts := (splitSlashAux s.data []).filter (fun seg => seg ≠ "" ∧ seg ≠ ".") }

/-- `PurePosixPath.parents`: all proper ancestors, from the root upwards
(order is irrelevant here; only membership is used). -/
def PurePath.parents (p : PurePath) : List PurePath :=
  (List.range p.parts.length).map (fun k => ⟨p.root, p.parts.take k⟩)

/-- Embeds `_path_in_mount` (`server.py`):
`mount_obj == path_obj or mount_obj in path_obj.parents`. -/
def path_in_mount (path mount : String) : Bool :=
  parsePath mount == parsePath path
    || (parsePath path).parents.contains (parsePath mount)

/-! ### Data model (`models.py`)

Timestamps are `Nat`s; `datetime` defaults are supplied by the caller.
-/

/-- `WorkerStatus` enum. -/
inductive WorkerStatus where
  | IDLE
  | TRANSFERRING
  | ERROR
  deriving DecidableEq, Repr

/-- `DataPlaneEndpoint` model. -/
structure DataPlaneEndpoint where
  address : String
  deriving DecidableEq, Repr

/-- `SyncRequest` model (validation is separate, in `mkSyncRequest`). -/
structure SyncRequest where
  request_id : String
  source_path : String
  destination_path : String
  file_list : Option (List String)
  chunk_size_mb : Nat
  deriving DecidableEq, Repr

/-- `WorkerHeartbeat` model. -/
structure WorkerHeartbeat where
  worker_id : String
  status : WorkerStatus
  timestamp : Nat
  control_plane_address : Option String
  data_plane_endpoints : List DataPlaneEndpoint
  storage_paths : List String
  deriving DecidableEq, Repr

/-- `SyncProgress` model. `state` is a plain string in the source
(`"QUEUED" | "PROGRESS" | "COMPLETED" | "FAILED"`); `detail` is a dict from
endpoint key to status string. -/
structure SyncProgress where
  request_id : String
  transferred_bytes : Nat
  total_bytes : Nat
  started_at : Nat
  updated_at : Nat
  state : String
  detail : List (String × String)
  deriving DecidableEq, Repr

/-- `Assignment` model. -/
structure Assignment where
  request_id : String
  worker_id : String
  source_path : String
  destination_path : String
  chunk_offset : Nat
  chunk_size : Nat
  source_worker_pool : List String
  destination_worker_pool : List String
  deriving DecidableEq, Repr

/-- `SyncResult` model. -/
structure SyncResult where
  request_id : String
  worker_id : String
  success : Bool
  message : String
  completed_at : Nat
  data_plane_address : Option String
  deriving DecidableEq, Repr

/-! ### Model construction and validation

Pydantic validates fields first (`chunk_size_mb` range `ge=1, le=1024`), then
the model validator checks that `source_path` and `destination_path` are
absolute (`pathlib.Path.is_absolute`, POSIX: leading `'/'`).  A failure names
the offending field.  `WorkerHeartbeat` declares `storage_paths` as a plain
`List[str]` with no validator.
-/

/-- A structured validation error naming the offending field. -/
structure ValidationErrorInfo where
  field : String
  msg : String
  deriving DecidableEq, Repr

/-- POSIX `Path.is_absolute`. -/
def isAbsolutePath (p : String) : Bool := strStartsWith p "/"

/-- Embeds `SyncRequest.__init__` / validators (`models.py`): range check on
`chunk_size_mb`, then absolute-path checks on `source_path` and
`destination_path`, each error naming its field. -/
def mkSyncRequest (request_id source_path destination_path : String)
    (file_list : Option (List String)) (chunk_size_mb : Nat) :
    Except ValidationErrorInfo SyncRequest :=
  if chunk_size_mb < 1 then
    .error ⟨"chunk_size_mb", "Input should be greater than or equal to 1"⟩
  else if 1024 < chunk_size_mb then
    .error ⟨"chunk_size_mb", "Input should be less than or equal to 1024"⟩
  else if ¬ isAbsolutePath source_path then
    .error ⟨"source_path", "source_path must be an absolute path"⟩
  else if ¬ isAbsolutePath destination_path then
    .error ⟨"destination_path", "destination_path must be an absolute path"⟩
  else
    .ok ⟨request_id, source_path, destination_path, file_list, chunk_size_mb⟩

/-- Embeds `WorkerHeartbeat` construction (`models.py`): no validator runs on
`storage_paths` (or any other field), so construction always succeeds. -/
def mkWorkerHeartbeat (worker_id : String) (status : WorkerStatus)
    (timestamp : Nat) (control_plane_address : Option String)
    (data_plane_endpoints : List DataPlaneEndpoint)
    (storage_paths : List String) :
    Except ValidationErrorInfo WorkerHeartbeat :=
  .ok ⟨worker_id, status, timestamp, control_plane_address,
       data_plane_endpoints, storage_paths⟩

/-! ### Ordered-dict helpers -/

/-- `d[k]` lookup (a dict holds at most one binding of `k`). -/
def dictGet {α : Type} : List (String × α) → String → Option α
  | [], _ => none
  | p :: d, k => if p.1 = k then some p.2 else dictGet d k

/-- `d[k] = v`: update in place if `k` is present, else append (CPython
dicts keep the position of an updated key). -/
def dictSet {α : Type} : List (String × α) → String → α → List (String × α)
  | [], k, v => [(k, v)]
  | p :: d, k, v => if p.1 = k then (k, v) :: d else p :: dictSet d k v

/-- `d.pop(k, None)`: remove the binding of `k`. -/
def dictPop {α : Type} (d : List (String × α)) (k : String) :
    List (String × α) :=
  d.filter (fun p => p.1 ≠ k)

/-- `defaultdict(list)` append: `d[k].append(v)`. -/
def dictAppend {α : Type} : List (String × List α) → String → α →
    List (String × List α)
  | [], k, v => [(k, [v])]
  | p :: d, k, v =>
      if p.1 = k then (p.1, p.2 ++ [v]) :: d else p :: dictAppend d k v

/-- Order-preserving deduplication keeping first occurrences (the explicit
`seen`-set loop of `_worker_pool_for_path`). -/
def dedupFirstAux : List String → List String → List String
  | [], _ => []
  | x :: xs, seen =>
      if x ∈ seen then dedupFirstAux xs seen
      else x :: dedupFirstAux xs (x :: seen)

/-- Deduplicate preserving order of first occurrences. -/
def dedupFirst (l : List String) : List String := dedupFirstAux l []

/-! ### Scheduler (`scheduler/base.py`, `scheduler/round_robin.py`) -/

/-- `WorkerInterface` (`scheduler/base.py`). -/
structure WorkerInterface where
  worker_id : String
  address : String
  deriving DecidableEq, Repr

/-- The `key` property: `worker_id + "::" + address`. -/
def WorkerInterface.key (w : WorkerInterface) : String :=
  w.worker_id ++ "::" ++ w.address

/-- Sort-key order used by `select_workers`: `worker_id` only. -/
def wiLe (a b : WorkerInterface) : Bool := strLeB a.worker_id b.worker_id

/-- Stable insertion of `a` into an already-sorted list: on ties `a` goes
first, which — combined with `insSort` recursing on the tail — keeps equal
keys in input order. -/
def ordInsert {α : Type} (le : α → α → Bool) (a : α) : List α → List α
  | [] => [a]
  | b :: l => if le a b then a :: b :: l else b :: ordInsert le a l

/-- Stable sort; agrees with Python's `sorted` (the stable sorted permutation
for a total preorder is unique). -/
def insSort {α : Type} (le : α → α → Bool) : List α → List α
  | [] => []
  | a :: l => ordInsert le a (insSort le l)

/-- `sorted(workers, key=lambda w: w.worker_id)` in `select_workers`. -/
def sortByWorkerId (ws : List WorkerInterface) : List WorkerInterface :=
  insSort wiLe ws

/-- The index of the first interface whose key matches (the
`for idx, worker in enumerate(active)` scan with `break` in
`select_workers`). -/
def firstKeyIdx (k : String) : List WorkerInterface → Option Nat
  | [] => none
  | w :: ws =>
      if w.key == k then some 0 else (firstKeyIdx k ws).map (fun i => i + 1)

/-- Where a `select_workers` call starts walking: just after the first
occurrence of the remembered key, or 0 when there is no remembered key or it
is absent from the current sorted sequence. -/
def startIndex (last : Option String) (active : List WorkerInterface) : Nat :=
  match last with
  | none => 0
  | some k =>
      match firstKeyIdx k active with
      | some idx => (idx + 1) % active.length
      | none => 0

/-- Embeds `RoundRobinPolicy.select_workers`.  The policy state is the
last-assigned endpoint key (`self._last_key`); the call returns the chosen
interfaces and the new state. -/
def select_workers (last : Option String) (workers : List WorkerInterface)
    (required : Nat) : List WorkerInterface × Option String :=
  let active := sortByWorkerId workers
  if active.isEmpty then ([], last)
  else
    let count := min required active.length
    let start := startIndex last active
    let picks := (List.range count).map
      (fun i => active.getD ((start + i) % active.length) ⟨"", ""⟩)
    let newLast :=
      match picks.getLast? with
      | some w => some w.key
      | none => last
    (picks, newLast)

/-! ### Orchestrator state (`server.py`) -/

/-- `RequestState` dataclass. -/
structure RequestState where
  request : SyncRequest
  progress : SyncProgress
  pending_files : List String
  active_assignments : List (String × Assignment)
  preferred_worker : Option String
  deriving DecidableEq, Repr

/-- The in-memory state of `DMSMaster` (scheduler = the round-robin policy,
the default and only registered one; its state is `rr_last`). -/
structure Master where
  requests : List (String × RequestState)
  worker_status : List (String × WorkerHeartbeat)
  result_log : List (String × List SyncResult)
  assignment_queue : List Assignment
  rr_last : Option String
  deriving DecidableEq, Repr

/-- A freshly constructed `DMSMaster`. -/
def initMaster : Master := ⟨[], [], [], [], none⟩

/-- Embeds `_endpoint_key`: Python's `if address:` is false for `None` and
for the empty string. -/
def endpoint_key (worker_id : String) (address : Option String) : String :=
  match address with
  | some a => if a.isEmpty then worker_id else worker_id ++ "::" ++ a
  | none => worker_id

/-- Embeds `DMSMaster._worker_pool_for_path`: iterate the registry in order,
keep workers with a covering mount, then deduplicate keeping first
occurrences. -/
def worker_pool_for_path (ws : List (String × WorkerHeartbeat))
    (path : String) : List String :=
  let pool := (ws.filter
    (fun p => p.2.storage_paths.any (fun m => path_in_mount path m))).map
    (fun p => p.1)
  dedupFirst pool

/-- Embeds `DMSMaster._fail_request` (without the metadata calls): no-op when
already FAILED; otherwise set FAILED, record the `master`-keyed detail, clear
pending and active work, and produce the synthetic failure result that the
caller appends to the result log. -/
def fail_request (st : RequestState) (message : String) (now : Nat) :
    RequestState × Option SyncResult :=
  if st.progress.state == "FAILED" then (st, none)
  else
    let progress := { st.progress with
      state := "FAILED",
      detail := dictSet st.progress.detail (endpoint_key "master" none) message }
    ({ st with progress := progress, pending_files := [],
               active_assignments := [] },
     some ⟨st.request.request_id, "master", false, message, now, none⟩)

/-- The parameters threaded through one `_schedule_work` pass: the (read-only)
worker registry and current time, plus the mutable busy set, result log,
assignment queue and scheduler state. -/
structure SchedCtx where
  worker_status : List (String × WorkerHeartbeat)
  busy : List String
  result_log : List (String × List SyncResult)
  queue : List Assignment
  rr_last : Option String
  now : Nat
  deriving DecidableEq, Repr

/-- The endpoint enumeration inside `_schedule_work` step 3: every
`(worker_id, address)` from the registry, restricted to candidate workers
whose status is not ERROR, excluding endpoints whose key is busy. -/
def availableEndpoints (ws : List (String × WorkerHeartbeat))
    (candidates : List String) (busy : List String) : List WorkerInterface :=
  ws.flatMap (fun p =>
    if p.1 ∉ candidates then []
    else if p.2.status = WorkerStatus.ERROR then []
    else p.2.data_plane_endpoints.filterMap (fun ep =>
      let iface : WorkerInterface := ⟨p.1, ep.address⟩
      if iface.key ∈ busy then none else some iface))

/-- The inner `for interface in chosen` loop of `_schedule_work`: pop pending
paths, record assignments, mark endpoints busy, enqueue.  Returns the updated
`(pending_files, active_assignments, busy, queue)`. -/
def assignLoop (req : SyncRequest)
    (source_pool destination_pool : List String) :
    List WorkerInterface → List String → List (String × Assignment) →
    List String → List Assignment →
    List String × List (String × Assignment) × List String × List Assignment
  | [], pending, active, busy, queue => (pending, active, busy, queue)
  | iface :: rest, pending, active, busy, queue =>
      match pending with
      | [] => ([], active, busy, queue)
      | path :: pendingRest =>
          if (dictGet active iface.key).isSome then
            assignLoop req source_pool destination_pool rest
              (path :: pendingRest) active busy queue
          else
            let a : Assignment :=
              ⟨req.request_id, iface.worker_id, path, req.destination_path,
               0, req.chunk_size_mb * 1024 * 1024,
               source_pool, destination_pool⟩
            assignLoop req source_pool destination_pool rest pendingRest
              (dictSet active iface.key a) (iface.key :: busy) (queue ++ [a])

/-- One iteration of `_schedule_work`'s `for state in self._requests.values()`
loop, acting on a single request. -/
def scheduleStep (ctx : SchedCtx) (st : RequestState) :
    SchedCtx × RequestState :=
  if st.pending_files.isEmpty then (ctx, st)
  else
    let source_pool := worker_pool_for_path ctx.worker_status st.request.source_path
    let destination_pool := worker_pool_for_path ctx.worker_status st.request.destination_path
    if source_pool.isEmpty then
      if ctx.worker_status.isEmpty then (ctx, st)
      else
        let fr := fail_request st
          ("No workers have access to source path " ++ st.request.source_path)
          ctx.now
        match fr.2 with
        | some r =>
            ({ ctx with result_log := dictAppend ctx.result_log st.request.request_id r }, fr.1)
        | none => (ctx, fr.1)
    else if destination_pool.isEmpty then
      if ctx.worker_status.isEmpty then (ctx, st)
      else
        let fr := fail_request st
          ("No workers have access to destination path " ++ st.request.destination_path)
          ctx.now
        match fr.2 with
        | some r =>
            ({ ctx with result_log := dictAppend ctx.result_log st.request.request_id r }, fr.1)
        | none => (ctx, fr.1)
    else
      let candidates : Option (List String) :=
        match st.preferred_worker with
        | some w => if w ∈ source_pool then some [w] else none
        | none => some source_pool
      match candidates with
      | none => (ctx, st)
      | some candidate_workers =>
          if candidate_workers.isEmpty then (ctx, st)
          else
            let available :=
              availableEndpoints ctx.worker_status candidate_workers ctx.busy
            if available.isEmpty then (ctx, st)
            else
              let needed := min available.length st.pending_files.length
              if needed = 0 then (ctx, st)
              else
                let sel := select_workers ctx.rr_last available needed
                let out := assignLoop st.request source_pool destination_pool
                  sel.1 st.pending_files st.active_assignments ctx.busy ctx.queue
                ({ ctx with busy := out.2.2.1, queue := out.2.2.2,
                            rr_last := sel.2 },
                 { st with pending_files := out.1,
                           active_assignments := out.2.1 })

/-- The traversal of all requests inside `_schedule_work`. -/
def schedulePass :
    List (String × RequestState) → SchedCtx →
    List (String × RequestState) × SchedCtx
  | [], ctx => ([], ctx)
  | p :: rest, ctx =>
      let step := scheduleStep ctx p.2
      let tail := schedulePass rest step.1
      ((p.1, step.2) :: tail.1, tail.2)

/-- All endpoint keys active in any request (the `busy_endpoints` set
comprehension at the top of `_schedule_work`). -/
def allActiveKeys (requests : List (String × RequestState)) : List String :=
  requests.flatMap (fun p => p.2.active_assignments.map Prod.fst)

/-- Embeds `DMSMaster._schedule_work`. -/
def schedule_work (m : Master) (now : Nat) : Master :=
  let ctx : SchedCtx :=
    ⟨m.worker_status, allActiveKeys m.requests, m.result_log,
     m.assignment_queue, m.rr_last, now⟩
  let out := schedulePass m.requests ctx
  { m with requests := out.1, result_log := out.2.result_log,
           assignment_queue := out.2.queue, rr_last := out.2.rr_last }

/-- Embeds `DMSMaster.submit_request`: duplicate ids raise
`ValueError("Request <id> already exists")` before any mutation; otherwise the
request is inserted in state QUEUED and a scheduling pass runs. -/
def submit_request (m : Master) (req : SyncRequest) (now : Nat) :
    Except String Master :=
  if (dictGet m.requests req.request_id).isSome then
    .error ("Request " ++ req.request_id ++ " already exists")
  else
    let pending :=
      match req.file_list with
      | some l => if l.isEmpty then [req.source_path] else l
      | none => [req.source_path]
    let progress : SyncProgress := ⟨req.request_id, 0, 0, now, now, "QUEUED", []⟩
    let st : RequestState := ⟨req, progress, pending, [], none⟩
    .ok (schedule_work
      { m with requests := m.requests ++ [(req.request_id, st)] } now)

/-- Embeds `DMSMaster.worker_heartbeat`: upsert the registry entry, then a
scheduling pass. -/
def worker_heartbeat (m : Master) (hb : WorkerHeartbeat) (now : Nat) : Master :=
  schedule_work
    { m with worker_status := dictSet m.worker_status hb.worker_id hb } now

/-- Embeds `DMSMaster.next_assignment`: empty queue = timeout (`None`); a
popped assignment for another worker is re-enqueued at the back and `None` is
returned; otherwise the owning request (if any) moves QUEUED → PROGRESS and
the matching endpoint-keyed detail is set.  (The Python `active is assignment`
identity test is modelled as first structural match.) -/
def next_assignment (m : Master) (worker_id : String) (now : Nat) :
    Option Assignment × Master :=
  match m.assignment_queue with
  | [] => (none, m)
  | a :: rest =>
      if a.worker_id ≠ worker_id then
        (none, { m with assignment_queue := rest ++ [a] })
      else
        let m' := { m with assignment_queue := rest }
        match dictGet m'.requests a.request_id with
        | none => (some a, m')
        | some st =>
            let p1 := { st.progress with updated_at := now }
            let p2 := if p1.state == "QUEUED" then { p1 with state := "PROGRESS" } else p1
            let detail_key :=
              match st.active_assignments.find? (fun q => q.2 == a) with
              | some q => q.1
              | none => endpoint_key a.worker_id none
            let p3 := { p2 with detail := dictSet p2.detail detail_key "PROGRESS" }
            let st' := { st with progress := p3 }
            (some a, { m' with requests := dictSet m'.requests a.request_id st' })

/-- The `assignment_key` computation in `report_result`: the endpoint key
from the result, falling back to the first active assignment of the same
worker, and finally to the bare `worker_id` (the loop's `else` clause). -/
def reportAssignmentKey (st : RequestState) (res : SyncResult) : String :=
  let akey0 := endpoint_key res.worker_id res.data_plane_address
  if (dictGet st.active_assignments akey0).isSome then akey0
  else
    match st.active_assignments.find?
        (fun q => q.2.worker_id == res.worker_id) with
    | some q => q.1
    | none => res.worker_id

/-- Embeds `DMSMaster.report_result`: unknown requests are dropped; the result
is logged; the endpoint-keyed detail is set to `COMPLETED` or, on failure, the
state becomes FAILED and the detail records the message; the matched
assignment is removed; and the request completes when nothing remains pending
or active and it is not FAILED. -/
def report_result (m : Master) (res : SyncResult) (now : Nat) : Master :=
  match dictGet m.requests res.request_id with
  | none => m
  | some st0 =>
      let log' := dictAppend m.result_log res.request_id res
      let p0 := { st0.progress with updated_at := now }
      let detail_key :=
        match res.data_plane_address with
        | none =>
            match st0.active_assignments.find?
                (fun q => q.2.worker_id == res.worker_id) with
            | some q => q.1
            | none => endpoint_key res.worker_id res.data_plane_address
        | some _ => endpoint_key res.worker_id res.data_plane_address
      let p1 :=
        if res.success then
          { p0 with detail := dictSet p0.detail detail_key "COMPLETED" }
        else
          { p0 with state := "FAILED",
                    detail := dictSet p0.detail detail_key res.message }
      let active' := dictPop st0.active_assignments
        (reportAssignmentKey st0 res)
      let p2 :=
        if st0.pending_files.isEmpty ∧ active'.isEmpty ∧ p1.state ≠ "FAILED" then
          { p1 with state := "COMPLETED" }
        else p1
      let st' := { st0 with progress := p2, active_assignments := active' }
      { m with requests := dictSet m.requests res.request_id st',
               result_log := log' }

/-- The `async with self._lock` body of `DMSMaster.reassign_request`: the
four `ValueError` preconditions, then return active source paths to the front
of `pending_files`, rebuild the pending list if empty, drain this request's
queued assignments, set the preferred worker, drop a stale `master`
eligibility detail, and re-queue.  The scheduling pass runs after the lock is
released (see `reassign_request`). -/
def reassign_request_locked (m : Master) (request_id worker_id : String)
    (now : Nat) : Except String Master :=
  match dictGet m.requests request_id with
  | none => .error ("Request " ++ request_id ++ " not found")
  | some st =>
      if st.progress.state ≠ "QUEUED" ∧ st.progress.state ≠ "FAILED" then
        .error "Reassignment is only supported for requests in QUEUED or FAILED state"
      else if (dictGet m.worker_status worker_id).isNone then
        .error ("Worker " ++ worker_id ++ " is not registered with the master")
      else
        let source_pool := worker_pool_for_path m.worker_status st.request.source_path
        if worker_id ∉ source_pool then
          .error ("Worker " ++ worker_id ++ " does not have access to "
            ++ st.request.source_path)
        else
          let reassigned := st.active_assignments.map (fun q => q.2.source_path)
          let pending0 := reassigned ++ st.pending_files
          let pending :=
            if pending0.isEmpty then
              match st.request.file_list with
              | some l => if l.isEmpty then [st.request.source_path] else l
              | none => [st.request.source_path]
            else pending0
          let queue' := m.assignment_queue.filter
            (fun a => a.request_id ≠ request_id)
          let detail' :=
            match dictGet st.progress.detail (endpoint_key "master" none) with
            | some v =>
                if strStartsWith v "No workers have access" then
                  dictPop st.progress.detail (endpoint_key "master" none)
                else st.progress.detail
            | none => st.progress.detail
          let progress' :=
            { st.progress with
              state := "QUEUED", updated_at := now, detail := detail' }
          let st' : RequestState :=
            { st with pending_files := pending, active_assignments := [],
                      preferred_worker := some worker_id,
                      progress := progress' }
          .ok { m with requests := dictSet m.requests request_id st',
                       assignment_queue := queue' }

/-- Embeds `DMSMaster.reassign_request`: the locked mutation above followed —
on success, after the lock is released — by a scheduling pass. -/
def reassign_request (m : Master) (request_id worker_id : String)
    (now : Nat) : Except String Master :=
  (reassign_request_locked m request_id worker_id now).map
    (fun m' => schedule_work m' now)

/-- Embeds `DMSMaster.forget_request` (in-memory part): remove the request and
its result log entries; both `pop`s default to `None`, so this never raises. -/
def forget_request (m : Master) (request_id : String) : Master :=
  { m with requests := dictPop m.requests request_id,
           result_log := dictPop m.result_log request_id }

/-! ### HTTP surface (`app.py`) -/

/-- The exception class name raised by `submit_request` on a duplicate id
(a plain `ValueError`). -/
def submitRaisedClass : String := "ValueError"

/-- The exception class names caught by the `POST /sync` handler in `app.py`
(`except RequestAlreadyExistsError`). -/
def submitSyncCaughtClasses : List String := ["RequestAlreadyExistsError"]

/-- Top-level names defined in (or imported into) `server.py`, which is the
module `app.py` imports `RequestAlreadyExistsError` from. -/
def serverModuleTopLevelNames : List String :=
  ["asyncio", "defaultdict", "deque", "dataclass", "datetime",
   "PurePosixPath", "Deque", "Dict", "List", "Optional", "Set",
   "MasterConfig", "configure_logging", "Assignment", "SyncProgress",
   "SyncRequest", "SyncResult", "WorkerHeartbeat", "WorkerStatus",
   "SchedulerPolicy", "WorkerInterface", "registry", "round_robin",
   "MetadataStore", "RedisMetadataStore", "RequestState", "_endpoint_key",
   "_path_in_mount", "DMSMaster"]

/-- Embeds the `POST /sync` handler `submit_sync`: 202 with
`{status: "queued", request_id}` on success; a raised exception is mapped to
409 only when its class is among the handler's caught classes, otherwise it
escapes as an internal server error (500). -/
def submit_sync (m : Master) (req : SyncRequest) (now : Nat) : Nat × Master :=
  match submit_request m req now with
  | .ok m' => (202, m')
  | .error _ =>
      if submitRaisedClass ∈ submitSyncCaughtClasses then (409, m) else (500, m)

/-- Embeds the `DELETE /sync/{id}` handler `delete_request`: always 200 with
`{status: "deleted"}`. -/
def delete_request_endpoint (m : Master) (request_id : String) :
    Nat × String × Master :=
  (200, "deleted", forget_request m request_id)

/-- Embeds the `POST /sync/{id}/reassign` handler: `ValueError` ⇒ 400, else
200. -/
def reassign_endpoint (m : Master) (request_id worker_id : String)
    (now : Nat) : Nat × Master :=
  match reassign_request m request_id worker_id now with
  | .ok m' => (200, m')
  | .error _ => (400, m)

/-! ### Reachable states -/

/-- States of the orchestrator reachable from a fresh master through its
public operations (failed `submit`/`reassign` calls raise before mutating, so
they produce no new state). -/
inductive Reach : Master → Prop where
  | init : Reach initMaster
  | submit {m m' : Master} (req : SyncRequest) (now : Nat) :
      Reach m → submit_request m req now = .ok m' → Reach m'
  | heartbeat {m : Master} (hb : WorkerHeartbeat) (now : Nat) :
      Reach m → Reach (worker_heartbeat m hb now)
  | nextAssign {m : Master} (worker_id : String) (now : Nat) :
      Reach m → Reach (next_assignment m worker_id now).2
  | report {m : Master} (res : SyncResult) (now : Nat) :
      Reach m → Reach (report_result m res now)
  | reassign {m m' : Master} (request_id worker_id : String) (now : Nat) :
      Reach m → reassign_request m request_id worker_id now = .ok m' → Reach m'
  | forget {m : Master} (request_id : String) :
      Reach m → Reach (forget_request m request_id)

/-! ## General lemmas about the stable sort and the string order -/

theorem ordInsert_perm {α : Type} (le : α → α → Bool) (a : α) :
    ∀ l : List α, (ordInsert le a l).Perm (a :: l) := by
  intro l
  induction l with
  | nil => simp [ordInsert]
  | cons b l ih =>
      by_cases h : le a b = true
      · simp [ordInsert, h]
      · simp only [ordInsert, h, if_neg, Bool.not_eq_true]
        exact (ih.cons b).trans (List.Perm.swap a b l)

theorem insSort_perm {α : Type} (le : α → α → Bool) :
    ∀ l : List α, (insSort le l).Perm l := by
  intro l
  induction l with
  | nil => simp [insSort]
  | cons a l ih =>
      exact (ordInsert_perm le a (insSort le l)).trans (List.Perm.cons a ih)

theorem mem_ordInsert {α : Type} (le : α → α → Bool) (a x : α) (l : List α) :
    x ∈ ordInsert le a l ↔ x = a ∨ x ∈ l := by
  have h := (ordInsert_perm le a l).mem_iff (a := x)
  simpa using h

theorem ordInsert_pairwise {α : Type} (le : α → α → Bool)
    (htot : ∀ a b, le a b = true ∨ le b a = true)
    (htrans : ∀ a b c, le a b = true → le b c = true → le a c = true)
    (a : α) :
    ∀ l : List α, l.Pairwise (fun x y => le x y = true) →
      (ordInsert le a l).Pairwise (fun x y => le x y = true) := by
  intro l
  induction l with
  | nil => intro _; simp [ordInsert]
  | cons b l ih =>
      intro hl
      rcases List.pairwise_cons.mp hl with ⟨hb, hl'⟩
      by_cases h : le a b = true
      · simp only [ordInsert, h, if_pos]
        refine List.pairwise_cons.mpr ⟨?_, hl⟩
        intro x hx
        rcases List.mem_cons.mp hx with rfl | hx
        · exact h
        · exact htrans a b x h (hb x hx)
      · simp only [ordInsert, h, if_neg]
        refine List.pairwise_cons.mpr ⟨?_, ih hl'⟩
        intro x hx
        rcases (mem_ordInsert le a x l).mp hx with hxa | hx
        · subst hxa
          rcases htot x b with h' | h'
          · exact absurd h' h
          · exact h'
        · exact hb x hx

theorem insSort_pairwise {α : Type} (le : α → α → Bool)
    (htot : ∀ a b, le a b = true ∨ le b a = true)
    (htrans : ∀ a b c, le a b = true → le b c = true → le a c = true) :
    ∀ l : List α, (insSort le l).Pairwise (fun x y => le x y = true) := by
  intro l
  induction l with
  | nil => simp [insSort]
  | cons a l ih => exact ordInsert_pairwise le htot htrans a _ ih

theorem charLtB_asymm {a b : Char} (h : charLtB a b = true) :
    charLtB b a = false := by
  simp only [charLtB, decide_eq_true_eq] at h
  simp only [charLtB, decide_eq_false_iff_not]
  omega

theorem charLtB_eq_of_not {a b : Char} (h1 : ¬ charLtB a b = true)
    (h2 : ¬ charLtB b a = true) : a = b := by
  simp only [charLtB, decide_eq_true_eq, Nat.not_lt] at h1 h2
  have : a.toNat = b.toNat := le_antisymm h2 h1
  have hv : a.val.toNat = b.val.toNat := this
  exact Char.ext (UInt32.ext hv)

theorem strLtAux_total : ∀ as bs : List Char,
    strLtAux as bs = true ∨ strLtAux bs as = true ∨ as = bs := by
  intro as
  induction as with
  | nil =>
      intro bs
      cases bs with
      | nil => exact Or.inr (Or.inr rfl)
      | cons b bs => exact Or.inl rfl
  | cons a as ih =>
      intro bs
      cases bs with
      | nil => exact Or.inr (Or.inl rfl)
      | cons b bs =>
          by_cases h1 : charLtB a b = true
          · exact Or.inl (by simp [strLtAux, h1])
          · by_cases h2 : charLtB b a = true
            · refine Or.inr (Or.inl ?_)
              simp [strLtAux, h2, charLtB_asymm h2]
            · have hab : a = b := charLtB_eq_of_not h1 h2
              subst hab
              rcases ih bs with h | h | h
              · exact Or.inl (by simp [strLtAux, h1, h])
              · exact Or.inr (Or.inl (by simp [strLtAux, h1, h]))
              · exact Or.inr (Or.inr (by rw [h]))

theorem strLeB_total : ∀ a b : String, strLeB a b = true ∨ strLeB b a = true := by
  intro a b
  by_cases hab : a = b
  · subst hab; exact Or.inl (by simp [strLeB])
  · rcases strLtAux_total a.data b.data with h | h | h
    · exact Or.inl (by simp [strLeB, h])
    · exact Or.inr (by simp [strLeB, h])
    · exact absurd (String.ext h) hab

theorem strLtAux_trans : ∀ as bs cs : List Char,
    strLtAux as bs = true → strLtAux bs cs = true → strLtAux as cs = true := by
  intro as
  induction as with
  | nil =>
      intro bs cs h1 h2
      cases bs with
      | nil => simp [strLtAux] at h1
      | cons b bs =>
          cases cs with
          | nil => simp [strLtAux] at h2
          | cons c cs => simp [strLtAux]
  | cons a as ih =>
      intro bs cs h1 h2
      cases bs with
      | nil => simp [strLtAux] at h1
      | cons b bs =>
          cases cs with
          | nil => simp [strLtAux] at h2
          | cons c cs =>
              simp only [strLtAux] at h1 h2 ⊢
              by_cases hab : charLtB a b = true
              · by_cases hbc : charLtB b c = true
                · have hac : charLtB a c = true := by
                    simp only [charLtB, decide_eq_true_eq] at hab hbc ⊢
                    omega
                  simp [hac]
                · by_cases hcb : charLtB c b = true
                  · simp [hbc, hcb] at h2
                  · have : b = c := charLtB_eq_of_not hbc hcb
                    subst this
                    simp [hab]
              · by_cases hba : charLtB b a = true
                · simp [hab, hba] at h1
                · have : a = b := charLtB_eq_of_not hab hba
                  subst this
                  by_cases hbc : charLtB a c = true
                  · simp [hbc]
                  · by_cases hcb : charLtB c a = true
                    · simp [hbc, hcb] at h2
                    · have : a = c := charLtB_eq_of_not hbc hcb
                      subst this
                      simp only [if_neg hbc, if_neg hcb] at h2 ⊢
                      simp at h1 h2 ⊢
                      exact ih bs cs (by simpa [strLtAux, hab] using h1) h2

theorem strLeB_trans : ∀ a b c : String,
    strLeB a b = true → strLeB b c = true → strLeB a c = true := by
  intro a b c h1 h2
  simp only [strLeB, Bool.or_eq_true, beq_iff_eq] at h1 h2 ⊢
  rcases h1 with rfl | h1
  · exact h2
  · rcases h2 with rfl | h2
    · exact Or.inr h1
    · exact Or.inr (strLtAux_trans _ _ _ h1 h2)

theorem wiLe_total : ∀ a b : WorkerInterface, wiLe a b = true ∨ wiLe b a = true := by
  intro a b; exact strLeB_total a.worker_id b.worker_id

theorem wiLe_trans : ∀ a b c : WorkerInterface,
    wiLe a b = true → wiLe b c = true → wiLe a c = true := by
  intro a b c; exact strLeB_trans a.worker_id b.worker_id c.worker_id

/-! ## General lemmas about the ordered-dict helpers -/

theorem dictGet_dictSet {α : Type} (d : List (String × α)) (k : String)
    (v : α) (k' : String) :
    dictGet (dictSet d k v) k' = if k' = k then some v else dictGet d k' := by
  induction d with
  | nil =>
      by_cases hk : k' = k
      · simp [dictSet, dictGet, hk]
      · simp [dictSet, dictGet, hk, Ne.symm hk]
  | cons p d ih =>
      by_cases hp : p.1 = k
      · by_cases hk : k' = k
        · simp [dictSet, dictGet, hp, hk]
        · have hk2 : ¬ k = k' := fun h => hk h.symm
          have hpk : ¬ p.1 = k' := by rw [hp]; exact hk2
          simp [dictSet, dictGet, hp, hk, hk2, hpk]
      · by_cases hpk : p.1 = k'
        · have hk : ¬ k' = k := fun h => hp (hpk.trans h)
          simp [dictSet, dictGet, hp, hpk, hk]
        · simp [dictSet, dictGet, hp, hpk, ih]

theorem dictGet_dictSet_self {α : Type} (d : List (String × α)) (k : String)
    (v : α) : dictGet (dictSet d k v) k = some v := by
  simp [dictGet_dictSet]

theorem dictGet_dictPop {α : Type} (d : List (String × α)) (k k' : String) :
    dictGet (dictPop d k) k' = if k' = k then none else dictGet d k' := by
  induction d with
  | nil => simp [dictPop, dictGet]
  | cons p d ih =>
      simp only [dictPop, ne_eq, List.filter_cons] at ih ⊢
      by_cases hp : p.1 = k
      · rw [if_neg (by simp [hp]), ih]
        by_cases hk : k' = k
        · simp [hk]
        · have hpk : ¬ p.1 = k' := by rw [hp]; exact fun h => hk h.symm
          simp [dictGet, hk, hpk]
      · rw [if_pos (by simp [hp])]
        by_cases hpk : p.1 = k'
        · have hk : ¬ k' = k := fun h => hp (hpk.trans h)
          simp [dictGet, hpk, hk]
        · simp only [decide_not] at ih
          simp [dictGet, hpk, ih]

/-- `dictSet` with a fresh key is an append. -/
theorem dictSet_fresh {α : Type} (d : List (String × α)) (k : String) (v : α) :
    ∀ _ : dictGet d k = none, dictSet d k v = d ++ [(k, v)] := by
  induction d with
  | nil => intro _; rfl
  | cons p d ih =>
      intro h
      by_cases hp : p.1 = k
      · simp [dictGet, hp] at h
      · simp only [dictGet, if_neg hp] at h
        simp [dictSet, hp, ih h]

/-- `dictSet` on a present key does not change the key list. -/
theorem keys_dictSet_present {α : Type} (d : List (String × α)) (k : String)
    (v : α) :
    ∀ _ : (dictGet d k).isSome = true,
      (dictSet d k v).map Prod.fst = d.map Prod.fst := by
  induction d with
  | nil => intro h; simp [dictGet] at h
  | cons p d ih =>
      intro h
      by_cases hp : p.1 = k
      · simp [dictSet, hp]
      · simp only [dictGet, if_neg hp] at h
        simp [dictSet, hp, ih h]

/-- Keys of `dictAppend`: unchanged when present, one new key otherwise. -/
theorem keys_dictAppend {α : Type} (d : List (String × List α)) (k : String)
    (v : α) :
    (dictAppend d k v).map Prod.fst = d.map Prod.fst
    ∨ (dictAppend d k v).map Prod.fst = d.map Prod.fst ++ [k] := by
  induction d with
  | nil => right; rfl
  | cons p d ih =>
      by_cases hp : p.1 = k
      · left; simp [dictAppend, hp]
      · rcases ih with h | h
        · left; simp [dictAppend, hp, h]
        · right; simp [dictAppend, hp, h]

/-! ## Claim C10 -/

/-- C10: `forget_request` is total and idempotent at the public interface:
for every `request_id` — submitted or not, already forgotten or not — the
`DELETE /sync/{id}` handler returns 200 `{status: "deleted"}`, and invoking
`forget_request` twice leaves the in-memory state (requests map and result
log) identical to invoking it once. -/
theorem c10_forget_request_total_idempotent :
    ∀ (m : Master) (request_id : String),
      forget_request (forget_request m request_id) request_id
          = forget_request m request_id
      ∧ (delete_request_endpoint m request_id).1 = 200
      ∧ (delete_request_endpoint m request_id).2.1 = "deleted" := by
  intro m rid
  refine ⟨?_, rfl, rfl⟩
  simp [forget_request, dictPop, List.filter_filter]

/-! ## Claim C7 -/

/-- C7 counterexample: constructing a `WorkerHeartbeat` with a non-absolute
entry in `storage_paths` does NOT raise a validation error — the model
declares `storage_paths` as a plain string list with no validator, so
construction succeeds. -/
theorem c7_counterexample :
    mkWorkerHeartbeat "w-a" WorkerStatus.IDLE 0 none [⟨"10.0.0.1"⟩]
        ["relative/path"]
      = .ok ⟨"w-a", WorkerStatus.IDLE, 0, none, [⟨"10.0.0.1"⟩],
             ["relative/path"]⟩ := rfl

/-- C7 amended: constructing a `SyncRequest` with a non-absolute
`source_path` or `destination_path` raises a validation error naming the
offending field, and valid inputs construct successfully; but constructing a
`WorkerHeartbeat` performs no absolute-path validation on `storage_paths` —
it succeeds for every input. -/
theorem c7_validation_amended :
    (∀ (rid sp dp : String) (fl : Option (List String)) (cs : Nat),
        isAbsolutePath sp = false → 1 ≤ cs → cs ≤ 1024 →
        mkSyncRequest rid sp dp fl cs
          = .error ⟨"source_path", "source_path must be an absolute path"⟩)
    ∧ (∀ (rid sp dp : String) (fl : Option (List String)) (cs : Nat),
        isAbsolutePath sp = true → isAbsolutePath dp = false →
        1 ≤ cs → cs ≤ 1024 →
        mkSyncRequest rid sp dp fl cs
          = .error ⟨"destination_path",
                    "destination_path must be an absolute path"⟩)
    ∧ (∀ (rid sp dp : String) (fl : Option (List String)) (cs : Nat),
        isAbsolutePath sp = true → isAbsolutePath dp = true →
        1 ≤ cs → cs ≤ 1024 →
        mkSyncRequest rid sp dp fl cs = .ok ⟨rid, sp, dp, fl, cs⟩)
    ∧ (∀ (wid : String) (status : WorkerStatus) (ts : Nat)
        (cpa : Option String) (eps : List DataPlaneEndpoint)
        (paths : List String),
        mkWorkerHeartbeat wid status ts cpa eps paths
          = .ok ⟨wid, status, ts, cpa, eps, paths⟩) := by
  refine ⟨?_, ?_, ?_, fun _ _ _ _ _ _ => rfl⟩
  · intro rid sp dp fl cs hsp h1 h2
    simp [mkSyncRequest, Nat.not_lt.mpr h1, Nat.not_lt.mpr h2, hsp]
  · intro rid sp dp fl cs hsp hdp h1 h2
    simp [mkSyncRequest, Nat.not_lt.mpr h1, Nat.not_lt.mpr h2, hsp, hdp]
  · intro rid sp dp fl cs hsp hdp h1 h2
    simp [mkSyncRequest, Nat.not_lt.mpr h1, Nat.not_lt.mpr h2, hsp, hdp]

/-- C7 witness: the amended theorem applied at a concrete non-absolute
source path. -/
theorem c7_validation_amended_witness :
    mkSyncRequest "req-abs" "relative/path" "/abs/path" none 64
      = .error ⟨"source_path", "source_path must be an absolute path"⟩ :=
  c7_validation_amended.1 "req-abs" "relative/path" "/abs/path" none 64
    (by decide) (by decide) (by decide)

/-! ## Claim C2 -/

/-- The duplicate-submission fixture of the repository's own test
`test_duplicate_request_returns_conflict_status`. -/
def c2Request : SyncRequest :=
  ⟨"demo-1", "/data/source", "/data/destination",
   some ["/data/source/file.txt"], 64⟩

/-- C2 (code bug): the first `POST /sync` returns 202, but the second POST
with the same `request_id` does NOT return 409: `submit_request` raises a
plain `ValueError`, while the handler in `app.py` catches only
`RequestAlreadyExistsError` — a name that `server.py` (the module it is
imported from) never defines, so the duplicate error escapes unhandled (500);
importing the app module even fails on that name.  The repository's own test
asserts 409. -/
theorem c2_duplicate_submit_bug :
    (submit_sync initMaster c2Request 0).1 = 202
    ∧ submit_sync (submit_sync initMaster c2Request 0).2 c2Request 1
        = (500, (submit_sync initMaster c2Request 0).2)
    ∧ submitRaisedClass ∉ submitSyncCaughtClasses
    ∧ "RequestAlreadyExistsError" ∉ serverModuleTopLevelNames := by
  exact ⟨rfl, rfl, by decide, by decide⟩

/-! ## Claim C4 -/

/-- C4: during a scheduling pass over a request with non-empty
`pending_files` that is not already FAILED, if the source-path worker pool is
empty then: when at least one worker is registered, the request transitions
to FAILED with `detail["master"] = "No workers have access to source path
<source_path>"`, its `pending_files` and `active_assignments` are cleared,
and a synthetic failure `SyncResult` (worker `master`, `success = false`) is
appended to the result log; when no workers are registered at all, the
scheduling step leaves the request and the context completely unchanged (a
QUEUED request remains QUEUED). -/
theorem c4_schedule_pool_gate (ctx : SchedCtx) (st : RequestState)
    (hpend : st.pending_files ≠ [])
    (hpool : worker_pool_for_path ctx.worker_status st.request.source_path = [])
    (hstate : st.progress.state ≠ "FAILED") :
    (ctx.worker_status ≠ [] →
      (scheduleStep ctx st).2.progress.state = "FAILED"
      ∧ dictGet (scheduleStep ctx st).2.progress.detail "master"
          = some ("No workers have access to source path "
              ++ st.request.source_path)
      ∧ (scheduleStep ctx st).2.pending_files = []
      ∧ (scheduleStep ctx st).2.active_assignments = []
      ∧ (scheduleStep ctx st).1.result_log
          = dictAppend ctx.result_log st.request.request_id
              ⟨st.request.request_id, "master", false,
               "No workers have access to source path "
                 ++ st.request.source_path, ctx.now, none⟩)
    ∧ (ctx.worker_status = [] → scheduleStep ctx st = (ctx, st)) := by
  have hp : st.pending_files.isEmpty = false := by
    cases h : st.pending_files with
    | nil => exact absurd h hpend
    | cons a l => rfl
  have hfb : (st.progress.state == "FAILED") = false :=
    beq_eq_false_iff_ne.mpr hstate
  constructor
  · intro hw
    have hwb : ctx.worker_status.isEmpty = false := by
      cases h : ctx.worker_status with
      | nil => exact absurd h hw
      | cons a l => rfl
    simp only [scheduleStep, hp, Bool.false_eq_true, if_false, hpool,
      List.isEmpty_nil, if_true, hwb, fail_request, hfb, endpoint_key]
    refine ⟨by simp, ?_, by simp, by simp, by simp⟩
    exact dictGet_dictSet_self _ _ _
  · intro hw
    have hwb : ctx.worker_status.isEmpty = true := by rw [hw]; rfl
    simp only [scheduleStep, hp, Bool.false_eq_true, if_false, hpool,
      List.isEmpty_nil, if_true, hwb]

/-- The destination-only worker of the repository test
`test_request_fails_when_worker_pools_missing`. -/
def c4Heartbeat : WorkerHeartbeat :=
  ⟨"dest-only", WorkerStatus.IDLE, 0, none, [⟨"10.0.0.2"⟩], ["/cluster/dest"]⟩

/-- The request of that test: its source path is covered by no worker. -/
def c4Request : SyncRequest :=
  ⟨"req-no-source", "/cluster/source", "/cluster/dest", none, 64⟩

/-- A scheduling context with one registered worker that cannot reach the
request's source path. -/
def c4Ctx : SchedCtx := ⟨[("dest-only", c4Heartbeat)], [], [], [], none, 1⟩

/-- The request's state when the scheduling pass reaches it. -/
def c4St : RequestState :=
  ⟨c4Request, ⟨"req-no-source", 0, 0, 0, 0, "QUEUED", []⟩,
   ["/cluster/source"], [], none⟩

/-- C4 witness: the theorem applied at the repository test's inputs. -/
theorem c4_schedule_pool_gate_witness :
    (scheduleStep c4Ctx c4St).2.progress.state = "FAILED"
    ∧ (scheduleStep c4Ctx c4St).2.pending_files = []
    ∧ (scheduleStep c4Ctx c4St).2.active_assignments = [] :=
  let h := (c4_schedule_pool_gate c4Ctx c4St (by decide) (by decide)
    (by decide)).1 (by decide)
  ⟨h.1, h.2.2.1, h.2.2.2.1⟩

/-! ## Claim C8 -/

/-- Spec-side covering relation, following the spec's words: a mount `M`
covers `P` iff `M == P` or `M` is a proper ancestor of `P` under POSIX path
semantics (components compared as-is, same root, `M`'s components a proper
front segment of `P`'s). -/
def coversSpec (M P : String) : Prop :=
  parsePath M = parsePath P
  ∨ ((parsePath M).root = (parsePath P).root
      ∧ (parsePath M).parts <+: (parsePath P).parts
      ∧ (parsePath M).parts ≠ (parsePath P).parts)

instance (M P : String) : Decidable (coversSpec M P) := by
  unfold coversSpec
  infer_instance

theorem mem_parents_iff (p m : PurePath) :
    m ∈ p.parents ↔
      m.root = p.root ∧ m.parts <+: p.parts ∧ m.parts ≠ p.parts := by
  constructor
  · intro hm
    rcases List.mem_map.mp hm with ⟨k, hk, rfl⟩
    have hk' : k < p.parts.length := List.mem_range.mp hk
    refine ⟨rfl, List.take_prefix k p.parts, ?_⟩
    intro h
    have hlen := congrArg List.length h
    simp only [List.length_take] at hlen
    omega
  · rintro ⟨hroot, hpre, hne⟩
    have hle : m.parts.length ≤ p.parts.length := hpre.length_le
    have hlt : m.parts.length < p.parts.length := by
      rcases lt_or_eq_of_le hle with h | h
      · exact h
      · exact absurd (hpre.eq_of_length h) hne
    apply List.mem_map.mpr
    refine ⟨m.parts.length, List.mem_range.mpr hlt, ?_⟩
    have htake : m.parts = p.parts.take m.parts.length :=
      List.prefix_iff_eq_take.mp hpre
    cases m with
    | mk r parts =>
        simp only at hroot htake ⊢
        rw [hroot, ← htake]

/-- The code's `_path_in_mount` decides exactly the spec's covering
relation. -/
theorem path_in_mount_iff (P M : String) :
    path_in_mount P M = true ↔ coversSpec M P := by
  unfold path_in_mount coversSpec
  rw [Bool.or_eq_true, beq_iff_eq, List.elem_iff, mem_parents_iff]

theorem dedupFirstAux_eq_self :
    ∀ (l seen : List String), l.Nodup → (∀ x ∈ l, x ∉ seen) →
      dedupFirstAux l seen = l := by
  intro l
  induction l with
  | nil => intro seen _ _; rfl
  | cons x xs ih =>
      intro seen hnd hdis
      rw [dedupFirstAux, if_neg (hdis x (by simp))]
      congr 1
      apply ih (x :: seen) (List.Nodup.of_cons hnd)
      intro y hy
      rw [List.mem_cons]
      rintro (rfl | hys)
      · exact (List.nodup_cons.mp hnd).1 hy
      · exact hdis y (List.mem_cons_of_mem x hy) hys

/-- C8: for every absolute path `P` and worker registry with distinct
worker ids, the eligibility pool is exactly the registry's workers — in
insertion order, duplicates removed — that have some storage mount `M` with
`M == P` or `M` a proper ancestor of `P` under POSIX path semantics. -/
theorem c8_worker_pool (ws : List (String × WorkerHeartbeat)) (P : String)
    (_habs : isAbsolutePath P = true)
    (hnodup : (ws.map Prod.fst).Nodup) :
    worker_pool_for_path ws P
      = (ws.filter
          (fun q => decide (∃ M ∈ q.2.storage_paths, coversSpec M P))).map
          Prod.fst := by
  unfold worker_pool_for_path
  have hfil : ws.filter
        (fun q => q.2.storage_paths.any (fun m => path_in_mount P m))
      = ws.filter
        (fun q => decide (∃ M ∈ q.2.storage_paths, coversSpec M P)) := by
    apply List.filter_congr
    intro q _
    rw [Bool.eq_iff_iff, List.any_eq_true, decide_eq_true_eq]
    constructor
    · rintro ⟨M, hM, h⟩
      exact ⟨M, hM, (path_in_mount_iff P M).mp h⟩
    · rintro ⟨M, hM, h⟩
      exact ⟨M, hM, (path_in_mount_iff P M).mpr h⟩
  rw [hfil]
  apply dedupFirstAux_eq_self
  · exact hnodup.sublist ((List.filter_sublist ws).map Prod.fst)
  · intro x _
    exact List.not_mem_nil x

/-- The registry of the repository test
`test_assignment_respects_storage_paths`: a destination-only worker followed
by a source-capable one. -/
def c8Registry : List (String × WorkerHeartbeat) :=
  [("worker-3", ⟨"worker-3", WorkerStatus.IDLE, 0, none, [⟨"192.168.10.3"⟩],
     ["/data/destination"]⟩),
   ("worker-2", ⟨"worker-2", WorkerStatus.IDLE, 0, none, [⟨"192.168.10.2"⟩],
     ["/data/source"]⟩)]

/-- C8 witness: the theorem applied to the test registry and the test's
source path; the pool is exactly the source-capable worker. -/
theorem c8_worker_pool_witness :
    worker_pool_for_path c8Registry "/data/source/project"
      = (c8Registry.filter
          (fun q => decide (∃ M ∈ q.2.storage_paths,
            coversSpec M "/data/source/project"))).map Prod.fst
    ∧ worker_pool_for_path c8Registry "/data/source/project" = ["worker-2"] :=
  ⟨c8_worker_pool c8Registry "/data/source/project" (by decide) (by decide),
   by decide⟩

/-! ## Claim C9 -/

/-- C9: `reassign_request(request_id, worker_id)` raises an error (surfaced
as HTTP 400 by the handler) if and only if the request does not exist, or its
state is neither QUEUED nor FAILED, or the worker is not in the worker
registry, or the worker's storage mounts do not cover the request's
source path.  When none of these hold the locked mutation succeeds, and in
its result the request's state is QUEUED and `preferred_worker` is
`worker_id` (the scheduling pass that `reassign_request` then runs operates
on that re-queued state). -/
theorem c9_reassign_preconditions (m : Master)
    (request_id worker_id : String) (now : Nat) :
    ((∃ e, reassign_request m request_id worker_id now = .error e) ↔
      (dictGet m.requests request_id = none
        ∨ (∃ st, dictGet m.requests request_id = some st
            ∧ st.progress.state ≠ "QUEUED" ∧ st.progress.state ≠ "FAILED")
        ∨ dictGet m.worker_status worker_id = none
        ∨ (∃ st, dictGet m.requests request_id = some st
            ∧ worker_id ∉ worker_pool_for_path m.worker_status
                st.request.source_path)))
    ∧ ((∃ e, reassign_request m request_id worker_id now = .error e) →
        reassign_endpoint m request_id worker_id now = (400, m))
    ∧ (∀ m', reassign_request_locked m request_id worker_id now = .ok m' →
        reassign_request m request_id worker_id now
            = .ok (schedule_work m' now)
        ∧ ∃ st', dictGet m'.requests request_id = some st'
            ∧ st'.progress.state = "QUEUED"
            ∧ st'.preferred_worker = some worker_id) := by
  cases hreq : dictGet m.requests request_id with
  | none =>
      refine ⟨⟨fun _ => Or.inl rfl, fun _ => ?_⟩, fun _ => ?_, fun m' h => ?_⟩
      · refine ⟨"Request " ++ request_id ++ " not found", ?_⟩
        simp [reassign_request, reassign_request_locked, hreq, Except.map]
      · simp [reassign_endpoint, reassign_request, reassign_request_locked,
          hreq, Except.map]
      · simp [reassign_request_locked, hreq] at h
  | some st =>
      by_cases hstate : st.progress.state ≠ "QUEUED"
          ∧ st.progress.state ≠ "FAILED"
      · refine ⟨⟨fun _ => Or.inr (Or.inl ⟨st, rfl, hstate.1, hstate.2⟩),
          fun _ => ?_⟩, fun _ => ?_, fun m' h => ?_⟩
        · refine ⟨"Reassignment is only supported for requests in QUEUED or FAILED state", ?_⟩
          simp [reassign_request, reassign_request_locked, hreq, hstate,
            Except.map]
        · simp [reassign_endpoint, reassign_request, reassign_request_locked,
            hreq, hstate, Except.map]
        · simp [reassign_request_locked, hreq, hstate] at h
      · by_cases hw : dictGet m.worker_status worker_id = none
        · have hwn : (dictGet m.worker_status worker_id).isNone = true := by
            rw [hw]; rfl
          refine ⟨⟨fun _ => Or.inr (Or.inr (Or.inl hw)), fun _ => ?_⟩,
            fun _ => ?_, fun m' h => ?_⟩
          · refine ⟨"Worker " ++ worker_id ++ " is not registered with the master", ?_⟩
            simp [reassign_request, reassign_request_locked, hreq, hstate,
              hwn, Except.map]
          · simp [reassign_endpoint, reassign_request,
              reassign_request_locked, hreq, hstate, hwn, Except.map]
          · simp [reassign_request_locked, hreq, hstate, hwn] at h
        · have hwn : (dictGet m.worker_status worker_id).isNone = false := by
            cases h : dictGet m.worker_status worker_id with
            | none => exact absurd h hw
            | some _ => rfl
          by_cases hpool : worker_id ∈ worker_pool_for_path m.worker_status
              st.request.source_path
          · refine ⟨⟨fun he => ?_, fun hr => ?_⟩, fun he => ?_, fun m' h => ?_⟩
            · rcases he with ⟨e, he⟩
              simp [reassign_request, reassign_request_locked, hreq, hstate,
                hwn, hpool, Except.map] at he
            · rcases hr with h | ⟨st2, hst2, h1, h2⟩ | h | ⟨st2, hst2, h3⟩
              · exact absurd h (by simp)
              · have hst : st = st2 := Option.some.inj hst2
                subst hst
                exact absurd ⟨h1, h2⟩ hstate
              · exact absurd h hw
              · have hst : st = st2 := Option.some.inj hst2
                subst hst
                exact absurd hpool h3
            · rcases he with ⟨e, he⟩
              simp [reassign_request, reassign_request_locked, hreq, hstate,
                hwn, hpool, Except.map] at he
            · constructor
              · unfold reassign_request
                rw [h]
                rfl
              · simp [reassign_request_locked, hreq, hstate, hwn, hpool] at h
                rw [← h]
                exact ⟨_, dictGet_dictSet_self _ _ _, rfl, rfl⟩
          · refine ⟨⟨fun _ => Or.inr (Or.inr (Or.inr ⟨st, rfl, hpool⟩)),
              fun _ => ?_⟩, fun _ => ?_, fun m' h => ?_⟩
            · refine ⟨"Worker " ++ worker_id ++ " does not have access to "
                ++ st.request.source_path, ?_⟩
              simp [reassign_request, reassign_request_locked, hreq, hstate,
                hwn, hpool, Except.map]
            · simp [reassign_endpoint, reassign_request,
                reassign_request_locked, hreq, hstate, hwn, hpool, Except.map]
            · simp [reassign_request_locked, hreq, hstate, hwn, hpool] at h

/-- A master holding one FAILED request and one registered worker that
covers its source path (the setting of the repository's reassign test). -/
def c9Master : Master :=
  ⟨[("req-reassign",
     ⟨⟨"req-reassign", "/data/source", "/data/dest", none, 64⟩,
      ⟨"req-reassign", 0, 0, 0, 0, "FAILED", []⟩, [], [], none⟩)],
   [("worker-b",
     ⟨"worker-b", WorkerStatus.IDLE, 0, none, [⟨"10.0.0.2"⟩], ["/data"]⟩)],
   [], [], none⟩

/-- The result of the locked reassign mutation on `c9Master`. -/
def c9Requeued : Master :=
  match reassign_request_locked c9Master "req-reassign" "worker-b" 5 with
  | .ok m => m
  | .error _ => c9Master

/-- C9 witness: the theorem applied at `c9Master`, where all four
preconditions hold. -/
theorem c9_reassign_preconditions_witness :
    reassign_request c9Master "req-reassign" "worker-b" 5
        = .ok (schedule_work c9Requeued 5)
    ∧ ∃ st', dictGet c9Requeued.requests "req-reassign" = some st'
        ∧ st'.progress.state = "QUEUED"
        ∧ st'.preferred_worker = some "worker-b" :=
  (c9_reassign_preconditions c9Master "req-reassign" "worker-b" 5).2.2
    c9Requeued rfl

/-! ## Claim C3: helper lemmas -/

theorem sublist_flatMap {α β : Type} (f : α → List β) :
    ∀ {l1 l2 : List α}, l1.Sublist l2 → (l1.flatMap f).Sublist (l2.flatMap f) := by
  intro l1 l2 h
  induction h with
  | slnil => exact List.Sublist.refl _
  | cons a _ ih =>
      rw [List.flatMap_cons]
      exact ih.trans (List.sublist_append_right _ _)
  | cons₂ a _ ih =>
      rw [List.flatMap_cons, List.flatMap_cons]
      exact List.Sublist.append_left ih _

theorem allActiveKeys_append (l1 l2 : List (String × RequestState)) :
    allActiveKeys (l1 ++ l2) = allActiveKeys l1 ++ allActiveKeys l2 :=
  List.flatMap_append l1 l2 _

/-- Replacing a present key's request by one whose active keys form a
sublist shrinks the global key list (as a sublist). -/
theorem allActiveKeys_dictSet_sublist :
    ∀ (d : List (String × RequestState)) (k : String) (st st' : RequestState),
      dictGet d k = some st →
      (st'.active_assignments.map Prod.fst).Sublist
        (st.active_assignments.map Prod.fst) →
      (allActiveKeys (dictSet d k st')).Sublist (allActiveKeys d) := by
  intro d
  induction d with
  | nil => intro k st st' h _; simp [dictGet] at h
  | cons p d ih =>
      intro k st st' hget hsub
      by_cases hp : p.1 = k
      · have hst : p.2 = st := by simpa [dictGet, hp] using hget
        simp only [dictSet, if_pos hp, allActiveKeys, List.flatMap_cons]
        exact List.Sublist.append (hst ▸ hsub) (List.Sublist.refl _)
      · have hget' : dictGet d k = some st := by
          simpa [dictGet, hp] using hget
        simp only [dictSet, if_neg hp, allActiveKeys, List.flatMap_cons]
        exact List.Sublist.append_left (ih k st st' hget' hsub) _

theorem dictGet_none_iff {α : Type} :
    ∀ (d : List (String × α)) (k : String),
      dictGet d k = none ↔ k ∉ d.map Prod.fst := by
  intro d
  induction d with
  | nil => intro k; simp [dictGet]
  | cons p d ih =>
      intro k
      by_cases hp : p.1 = k
      · simp [dictGet, hp]
      · rw [show dictGet (p :: d) k = dictGet d k by simp [dictGet, hp], ih k]
        constructor
        · intro h
          rw [List.map_cons, List.mem_cons]
          rintro (h1 | h2)
          · exact hp h1.symm
          · exact h h2
        · intro h hmem
          exact h (List.mem_cons_of_mem _ hmem)

/-- Every pick of `select_workers` comes from the candidate list. -/
theorem select_workers_mem (last : Option String) (ws : List WorkerInterface)
    (required : Nat) :
    ∀ w ∈ (select_workers last ws required).1, w ∈ ws := by
  intro w hw
  by_cases hemp : (sortByWorkerId ws).isEmpty = true
  · simp [select_workers, hemp] at hw
  · simp only [select_workers, hemp, Bool.false_eq_true, if_false] at hw
    rw [List.mem_map] at hw
    rcases hw with ⟨i, _, rfl⟩
    have hN : 0 < (sortByWorkerId ws).length := by
      cases hh : sortByWorkerId ws with
      | nil => rw [hh] at hemp; exact absurd rfl hemp
      | cons a l => exact Nat.succ_pos _
    have hlt : (startIndex last (sortByWorkerId ws) + i)
        % (sortByWorkerId ws).length < (sortByWorkerId ws).length :=
      Nat.mod_lt _ hN
    have hmem : (sortByWorkerId ws).getD
        ((startIndex last (sortByWorkerId ws) + i)
          % (sortByWorkerId ws).length) ⟨"", ""⟩ ∈ sortByWorkerId ws := by
      rw [List.getD_eq_getElem _ _ hlt]
      exact List.getElem_mem hlt
    exact (insSort_perm wiLe ws).mem_iff.mp hmem

/-- Every endpoint in the availability enumeration has a non-busy key. -/
theorem availableEndpoints_not_busy (ws : List (String × WorkerHeartbeat))
    (cands busy : List String) :
    ∀ iface ∈ availableEndpoints ws cands busy, iface.key ∉ busy := by
  intro iface hm
  unfold availableEndpoints at hm
  rw [List.mem_flatMap] at hm
  rcases hm with ⟨p, _, hp⟩
  by_cases h1 : p.1 ∉ cands
  · simp [h1] at hp
  · rw [if_neg h1] at hp
    by_cases h2 : p.2.status = WorkerStatus.ERROR
    · simp [h2] at hp
    · rw [if_neg h2] at hp
      rw [List.mem_filterMap] at hp
      rcases hp with ⟨ep, _, hep⟩
      by_cases hb : (⟨p.1, ep.address⟩ : WorkerInterface).key ∈ busy
      · simp [hb] at hep
      · rw [if_neg hb] at hep
        cases hep
        exact hb

/-- The inner assignment loop preserves global key distinctness: keys it
adds come from `chosen`, whose keys are outside the busy superset `busy0`
of all keys `K'` owned by other requests; per-request duplicates are skipped
by the `endpoint_id in state.active_assignments` guard, and every added key
is recorded in the busy set. -/
theorem assignLoop_invariant (req : SyncRequest)
    (source_pool destination_pool : List String) (K' busy0 : List String)
    (hK' : ∀ x ∈ K', x ∈ busy0) :
    ∀ (chosen : List WorkerInterface) (pending : List String)
      (active : List (String × Assignment)) (busy : List String)
      (queue : List Assignment),
      (∀ iface ∈ chosen, iface.key ∉ busy0) →
      ((active.map Prod.fst ++ K').Nodup) →
      (∀ x ∈ active.map Prod.fst ++ K', x ∈ busy) →
      (((assignLoop req source_pool destination_pool chosen pending active
            busy queue).2.1.map Prod.fst ++ K').Nodup)
      ∧ (∀ x ∈ (assignLoop req source_pool destination_pool chosen pending
            active busy queue).2.1.map Prod.fst ++ K',
          x ∈ (assignLoop req source_pool destination_pool chosen pending
            active busy queue).2.2.1)
      ∧ (∀ x ∈ busy, x ∈ (assignLoop req source_pool destination_pool chosen
          pending active busy queue).2.2.1) := by
  intro chosen
  induction chosen with
  | nil =>
      intro pending active busy queue _ hnd hbusy
      exact ⟨hnd, hbusy, fun _ hx => hx⟩
  | cons iface rest ih =>
      intro pending active busy queue hch hnd hbusy
      cases pending with
      | nil =>
          simp only [assignLoop]
          exact ⟨hnd, hbusy, fun _ hx => hx⟩
      | cons path pendingRest =>
          by_cases hk : (dictGet active iface.key).isSome = true
          · simp only [assignLoop, hk, if_true]
            exact ih _ _ _ _
              (fun w hw => hch w (List.mem_cons_of_mem _ hw)) hnd hbusy
          · have hknone : dictGet active iface.key = none := by
              cases hg : dictGet active iface.key with
              | none => rfl
              | some v => rw [hg] at hk; exact absurd rfl hk
            have hkmem : iface.key ∉ active.map Prod.fst :=
              (dictGet_none_iff active iface.key).mp hknone
            have hkb0 : iface.key ∉ busy0 := hch iface (List.mem_cons_self _ _)
            have hkK' : iface.key ∉ K' := fun hx => hkb0 (hK' _ hx)
            have hkAK : iface.key ∉ active.map Prod.fst ++ K' := by
              rw [List.mem_append]
              rintro (h | h)
              · exact hkmem h
              · exact hkK' h
            simp only [assignLoop, hk, Bool.false_eq_true, if_false]
            have hsetkeys : (dictSet active iface.key
                  ⟨req.request_id, iface.worker_id, path,
                   req.destination_path, 0,
                   req.chunk_size_mb * 1024 * 1024,
                   source_pool, destination_pool⟩).map Prod.fst
                = active.map Prod.fst ++ [iface.key] := by
              rw [dictSet_fresh active iface.key _ hknone, List.map_append]
              rfl
            have hperm : ((active.map Prod.fst ++ [iface.key]) ++ K').Perm
                (iface.key :: (active.map Prod.fst ++ K')) :=
              List.Perm.append_right K'
                (List.perm_append_singleton iface.key _)
            have hnd' : ((dictSet active iface.key
                  ⟨req.request_id, iface.worker_id, path,
                   req.destination_path, 0,
                   req.chunk_size_mb * 1024 * 1024,
                   source_pool, destination_pool⟩).map Prod.fst
                ++ K').Nodup := by
              rw [hsetkeys]
              exact (hperm.nodup_iff).mpr (List.nodup_cons.mpr ⟨hkAK, hnd⟩)
            have hbusy' : ∀ x ∈ (dictSet active iface.key
                  ⟨req.request_id, iface.worker_id, path,
                   req.destination_path, 0,
                   req.chunk_size_mb * 1024 * 1024,
                   source_pool, destination_pool⟩).map Prod.fst ++ K',
                x ∈ iface.key :: busy := by
              intro x hx
              rw [hsetkeys] at hx
              rcases (hperm.mem_iff).mp hx with hx'
              rcases List.mem_cons.mp hx' with rfl | hx''
              · exact List.mem_cons_self _ _
              · exact List.mem_cons_of_mem _ (hbusy x hx'')
            have hrec := ih pendingRest
              (dictSet active iface.key
                ⟨req.request_id, iface.worker_id, path,
                 req.destination_path, 0,
                 req.chunk_size_mb * 1024 * 1024,
                 source_pool, destination_pool⟩)
              (iface.key :: busy)
              (queue ++ [⟨req.request_id, iface.worker_id, path,
                 req.destination_path, 0,
                 req.chunk_size_mb * 1024 * 1024,
                 source_pool, destination_pool⟩])
              (fun w hw => hch w (List.mem_cons_of_mem _ hw)) hnd' hbusy'
            exact ⟨hrec.1, hrec.2.1,
              fun x hx => hrec.2.2 x (List.mem_cons_of_mem _ hx)⟩

/-- One `_schedule_work` iteration over a single request preserves global
key distinctness: `K'` stands for the active keys of every other request,
all of which are in the busy set. -/
theorem scheduleStep_invariant (ctx ctx1 : SchedCtx) (st st1 : RequestState)
    (K' : List String)
    (hstep : scheduleStep ctx st = (ctx1, st1))
    (hnd : (st.active_assignments.map Prod.fst ++ K').Nodup)
    (hbusy : ∀ x ∈ st.active_assignments.map Prod.fst ++ K', x ∈ ctx.busy) :
    ((st1.active_assignments.map Prod.fst ++ K').Nodup)
    ∧ (∀ x ∈ st1.active_assignments.map Prod.fst ++ K', x ∈ ctx1.busy)
    ∧ (∀ x ∈ ctx.busy, x ∈ ctx1.busy) := by
  have hKnd : ([] ++ K' : List String).Nodup := by
    simp only [List.nil_append]
    exact List.Sublist.nodup (List.sublist_append_right _ K') hnd
  have hKbusy : ∀ x ∈ ([] ++ K' : List String), x ∈ ctx.busy := by
    intro x hx
    simp only [List.nil_append] at hx
    exact hbusy x (List.mem_append_right _ hx)
  simp only [scheduleStep] at hstep
  split at hstep
  · injection hstep with h1 h2; subst h1; subst h2
    exact ⟨hnd, hbusy, fun _ hx => hx⟩
  · split at hstep
    · split at hstep
      · injection hstep with h1 h2; subst h1; subst h2
        exact ⟨hnd, hbusy, fun _ hx => hx⟩
      · split at hstep
        · rename_i r heq
          injection hstep with h1 h2; subst h1; subst h2
          by_cases hf : (st.progress.state == "FAILED") = true
          · have hnone : (fail_request st
                ("No workers have access to source path "
                  ++ st.request.source_path) ctx.now).2 = none := by
              simp [fail_request, hf]
            rw [hnone] at heq
            cases heq
          · have hact : (fail_request st
                ("No workers have access to source path "
                  ++ st.request.source_path) ctx.now).1.active_assignments
                = [] := by
              simp [fail_request, hf]
            rw [hact]
            exact ⟨hKnd, hKbusy, fun _ hx => hx⟩
        · rename_i heq
          injection hstep with h1 h2; subst h1; subst h2
          by_cases hf : (st.progress.state == "FAILED") = true
          · have hst : (fail_request st
                ("No workers have access to source path "
                  ++ st.request.source_path) ctx.now).1 = st := by
              simp [fail_request, hf]
            rw [hst]
            exact ⟨hnd, hbusy, fun _ hx => hx⟩
          · have hsome : (fail_request st
                ("No workers have access to source path "
                  ++ st.request.source_path) ctx.now).2
                = some ⟨st.request.request_id, "master", false,
                    "No workers have access to source path "
                      ++ st.request.source_path, ctx.now, none⟩ := by
              simp [fail_request, hf]
            rw [hsome] at heq
            cases heq
    · split at hstep
      · split at hstep
        · injection hstep with h1 h2; subst h1; subst h2
          exact ⟨hnd, hbusy, fun _ hx => hx⟩
        · split at hstep
          · rename_i r heq
            injection hstep with h1 h2; subst h1; subst h2
            by_cases hf : (st.progress.state == "FAILED") = true
            · have hnone : (fail_request st
                  ("No workers have access to destination path "
                    ++ st.request.destination_path) ctx.now).2 = none := by
                simp [fail_request, hf]
              rw [hnone] at heq
              cases heq
            · have hact : (fail_request st
                  ("No workers have access to destination path "
                    ++ st.request.destination_path) ctx.now).1.active_assignments
                  = [] := by
                simp [fail_request, hf]
              rw [hact]
              exact ⟨hKnd, hKbusy, fun _ hx => hx⟩
          · rename_i heq
            injection hstep with h1 h2; subst h1; subst h2
            by_cases hf : (st.progress.state == "FAILED") = true
            · have hst : (fail_request st
                  ("No workers have access to destination path "
                    ++ st.request.destination_path) ctx.now).1 = st := by
                simp [fail_request, hf]
              rw [hst]
              exact ⟨hnd, hbusy, fun _ hx => hx⟩
            · have hsome : (fail_request st
                  ("No workers have access to destination path "
                    ++ st.request.destination_path) ctx.now).2
                  = some ⟨st.request.request_id, "master", false,
                      "No workers have access to destination path "
                        ++ st.request.destination_path, ctx.now, none⟩ := by
                simp [fail_request, hf]
              rw [hsome] at heq
              cases heq
      · split at hstep
        · injection hstep with h1 h2; subst h1; subst h2
          exact ⟨hnd, hbusy, fun _ hx => hx⟩
        · rename_i cw heqc
          split at hstep
          · injection hstep with h1 h2; subst h1; subst h2
            exact ⟨hnd, hbusy, fun _ hx => hx⟩
          · split at hstep
            · injection hstep with h1 h2; subst h1; subst h2
              exact ⟨hnd, hbusy, fun _ hx => hx⟩
            · split at hstep
              · injection hstep with h1 h2; subst h1; subst h2
                exact ⟨hnd, hbusy, fun _ hx => hx⟩
              · injection hstep with h1 h2; subst h1; subst h2
                have hch : ∀ iface ∈ (select_workers ctx.rr_last
                      (availableEndpoints ctx.worker_status cw ctx.busy)
                      (min (availableEndpoints ctx.worker_status cw
                        ctx.busy).length st.pending_files.length)).1,
                    iface.key ∉ ctx.busy := by
                  intro iface hm
                  exact availableEndpoints_not_busy ctx.worker_status cw
                    ctx.busy iface (select_workers_mem _ _ _ iface hm)
                exact assignLoop_invariant st.request
                  (worker_pool_for_path ctx.worker_status
                    st.request.source_path)
                  (worker_pool_for_path ctx.worker_status
                    st.request.destination_path)
                  K' ctx.busy
                  (fun x hx => hbusy x (List.mem_append_right _ hx))
                  _ st.pending_files st.active_assignments ctx.busy ctx.queue
                  hch hnd hbusy

theorem perm_rotate3 {α : Type} (K S A : List α) :
    (K ++ (S ++ A)).Perm (S ++ (K ++ A)) := by
  have e1 : K ++ (S ++ A) = (K ++ S) ++ A := (List.append_assoc K S A).symm
  have e2 : (S ++ K) ++ A = S ++ (K ++ A) := List.append_assoc S K A
  rw [e1, ← e2]
  exact List.Perm.append_right A List.perm_append_comm

/-- A full `_schedule_work` traversal preserves global key distinctness;
`K` accumulates the keys of already-processed requests. -/
theorem schedulePass_invariant :
    ∀ (reqs : List (String × RequestState)) (ctx : SchedCtx) (K : List String),
      ((K ++ allActiveKeys reqs).Nodup) →
      (∀ x ∈ K ++ allActiveKeys reqs, x ∈ ctx.busy) →
      ((K ++ allActiveKeys (schedulePass reqs ctx).1).Nodup)
      ∧ (∀ x ∈ K ++ allActiveKeys (schedulePass reqs ctx).1,
          x ∈ (schedulePass reqs ctx).2.busy)
      ∧ (∀ x ∈ ctx.busy, x ∈ (schedulePass reqs ctx).2.busy) := by
  intro reqs
  induction reqs with
  | nil =>
      intro ctx K hnd hbusy
      exact ⟨hnd, hbusy, fun _ hx => hx⟩
  | cons p rest ih =>
      intro ctx K hnd hbusy
      rcases hh : scheduleStep ctx p.2 with ⟨ctx1, st1⟩
      simp only [schedulePass, hh, allActiveKeys, List.flatMap_cons] at hnd hbusy ⊢
      have hperm1 : (K ++ (p.2.active_assignments.map Prod.fst
            ++ rest.flatMap (fun q => q.2.active_assignments.map Prod.fst))).Perm
          (p.2.active_assignments.map Prod.fst
            ++ (K ++ rest.flatMap (fun q => q.2.active_assignments.map Prod.fst))) :=
        perm_rotate3 _ _ _
      have hstep := scheduleStep_invariant ctx ctx1 p.2 st1
        (K ++ rest.flatMap (fun q => q.2.active_assignments.map Prod.fst)) hh
        (hperm1.nodup_iff.mp hnd)
        (fun x hx => hbusy x (hperm1.mem_iff.mpr hx))
      have hperm2 : (st1.active_assignments.map Prod.fst
            ++ (K ++ rest.flatMap (fun q => q.2.active_assignments.map Prod.fst))).Perm
          ((K ++ st1.active_assignments.map Prod.fst)
            ++ rest.flatMap (fun q => q.2.active_assignments.map Prod.fst)) := by
        have := perm_rotate3 (st1.active_assignments.map Prod.fst) K
          (rest.flatMap (fun q => q.2.active_assignments.map Prod.fst))
        exact (this.trans (List.Perm.refl _)).trans
          (by rw [List.append_assoc])
      have hrec := ih ctx1 (K ++ st1.active_assignments.map Prod.fst)
        (hperm2.nodup_iff.mp hstep.1)
        (fun x hx => hstep.2.1 x (hperm2.mem_iff.mpr hx))
      have hperm3 : ((K ++ st1.active_assignments.map Prod.fst)
            ++ (schedulePass rest ctx1).1.flatMap
              (fun q => q.2.active_assignments.map Prod.fst)).Perm
          (K ++ (st1.active_assignments.map Prod.fst
            ++ (schedulePass rest ctx1).1.flatMap
              (fun q => q.2.active_assignments.map Prod.fst))) := by
        rw [List.append_assoc]
      refine ⟨hperm3.nodup_iff.mp hrec.1, ?_, ?_⟩
      · intro x hx
        exact hrec.2.1 x (hperm3.mem_iff.mpr hx)
      · intro x hx
        exact hrec.2.2 x (hstep.2.2 x hx)

/-- `_schedule_work` preserves global key distinctness. -/
theorem schedule_work_invariant (m : Master) (now : Nat)
    (hnd : (allActiveKeys m.requests).Nodup) :
    (allActiveKeys (schedule_work m now).requests).Nodup := by
  have h := schedulePass_invariant m.requests
    ⟨m.worker_status, allActiveKeys m.requests, m.result_log,
     m.assignment_queue, m.rr_last, now⟩ []
    (by simpa using hnd)
    (by intro x hx; simpa using hx)
  simpa [schedule_work] using h.1

/-- A successful locked reassign replaces one existing request by a state
with no active assignments. -/
theorem reassign_locked_ok_shape (m : Master) (rid wid : String) (now : Nat)
    (mid : Master) (h : reassign_request_locked m rid wid now = .ok mid) :
    ∃ st st', dictGet m.requests rid = some st
      ∧ st'.active_assignments = []
      ∧ mid.requests = dictSet m.requests rid st' := by
  simp only [reassign_request_locked] at h
  split at h
  · cases h
  · rename_i st hreq
    split at h
    · cases h
    · split at h
      · cases h
      · split at h
        · cases h
        · rw [Except.ok.injEq] at h
          exact ⟨st, _, hreq, rfl, by rw [← h]⟩

/-- Every state reachable through the orchestrator's operations has
pairwise-distinct active endpoint keys across all requests. -/
theorem reach_allActiveKeys_nodup :
    ∀ {m : Master}, Reach m → (allActiveKeys m.requests).Nodup := by
  intro m h
  induction h with
  | init => simp [initMaster, allActiveKeys]
  | @submit m m' req now _ heq ih =>
      by_cases hdup : (dictGet m.requests req.request_id).isSome = true
      · simp [submit_request, hdup] at heq
      · simp only [submit_request, hdup, Bool.false_eq_true, if_false,
          Except.ok.injEq] at heq
        subst heq
        apply schedule_work_invariant
        rw [allActiveKeys_append]
        simpa [allActiveKeys] using ih
  | @heartbeat m hb now _ ih =>
      exact schedule_work_invariant _ now ih
  | @nextAssign m wid now _ ih =>
      cases hq : m.assignment_queue with
      | nil => simpa [next_assignment, hq] using ih
      | cons a rest =>
          by_cases hw : a.worker_id ≠ wid
          · simpa [next_assignment, hq, hw] using ih
          · cases hreq : dictGet m.requests a.request_id with
            | none => simpa [next_assignment, hq, hw, hreq] using ih
            | some st =>
                simp only [next_assignment, hq, hw, if_neg, if_false,
                  hreq, not_false_iff, ite_false]
                exact List.Sublist.nodup
                  (allActiveKeys_dictSet_sublist m.requests a.request_id st _
                    hreq (List.Sublist.refl _)) ih
  | @report m res now _ ih =>
      cases hreq : dictGet m.requests res.request_id with
      | none => simpa [report_result, hreq] using ih
      | some st0 =>
          simp only [report_result, hreq]
          exact List.Sublist.nodup
            (allActiveKeys_dictSet_sublist m.requests res.request_id st0 _
              hreq ((List.filter_sublist _).map Prod.fst)) ih
  | @reassign m m' rid wid now _ heq ih =>
      simp only [reassign_request] at heq
      cases hl : reassign_request_locked m rid wid now with
      | error e => rw [hl] at heq; cases heq
      | ok mid =>
          rw [hl] at heq
          rw [show Except.map (fun m'' => schedule_work m'' now)
              (Except.ok mid) = Except.ok (schedule_work mid now) from rfl,
            Except.ok.injEq] at heq
          subst heq
          apply schedule_work_invariant
          rcases reassign_locked_ok_shape m rid wid now mid hl with
            ⟨st, st', hget, hact, hreqs⟩
          rw [hreqs]
          refine List.Sublist.nodup
            (allActiveKeys_dictSet_sublist m.requests rid st st' hget ?_) ih
          rw [hact]
          exact List.nil_sublist _
  | @forget m rid _ ih =>
      exact List.Sublist.nodup
        (sublist_flatMap _ (List.filter_sublist m.requests)) ih

/-- C3: in every reachable state of the orchestrator, at most one active
assignment exists per endpoint key (`worker_id + "::" + address`) across all
requests — the concatenated key list is duplicate-free; and a further
scheduling pass from such a state never assigns the same endpoint key twice
(the global key list stays duplicate-free), because endpoints already active
in any request are excluded from the candidate set and each newly chosen
endpoint is added to the busy set. -/
theorem c3_global_endpoint_invariant (m : Master) (h : Reach m) :
    (allActiveKeys m.requests).Nodup
    ∧ ∀ now, (allActiveKeys (schedule_work m now).requests).Nodup :=
  ⟨reach_allActiveKeys_nodup h,
   fun now => schedule_work_invariant m now (reach_allActiveKeys_nodup h)⟩

/-- A two-file request over `/d`. -/
def c3Request : SyncRequest :=
  ⟨"r-3", "/d/src", "/d/dst", some ["/d/src/f1", "/d/src/f2"], 64⟩

/-- One worker advertising two data-plane endpoints over `/d`. -/
def c3Heartbeat : WorkerHeartbeat :=
  ⟨"w3", WorkerStatus.IDLE, 0, none, [⟨"10.0.0.3"⟩, ⟨"10.0.0.4"⟩], ["/d"]⟩

/-- After submit and heartbeat: both files are assigned, one per endpoint. -/
def c3m2 : Master :=
  worker_heartbeat
    (match submit_request initMaster c3Request 0 with
     | .ok m => m
     | .error _ => initMaster) c3Heartbeat 1

/-- C3 witness: the theorem applied at a reachable state holding two active
assignments on distinct endpoint keys. -/
theorem c3_global_endpoint_invariant_witness :
    ((allActiveKeys c3m2.requests).Nodup
      ∧ ∀ now, (allActiveKeys (schedule_work c3m2 now).requests).Nodup)
    ∧ allActiveKeys c3m2.requests = ["w3::10.0.0.3", "w3::10.0.0.4"] :=
  ⟨c3_global_endpoint_invariant c3m2
    (Reach.heartbeat c3Heartbeat 1 (Reach.submit c3Request 0 Reach.init rfl)),
   by decide⟩

/-! ## Claim C1 -/

/-- A two-file request over `/a`. -/
def c1Request : SyncRequest :=
  ⟨"r-1", "/a/src", "/a/dst", some ["/a/src/f1", "/a/src/f2"], 64⟩

/-- One worker with a single data-plane endpoint covering `/a`. -/
def c1Heartbeat : WorkerHeartbeat :=
  ⟨"w1", WorkerStatus.IDLE, 0, none, [⟨"10.0.0.1"⟩], ["/a"]⟩

/-- The master after submitting the two-file request (no workers yet, so it
stays QUEUED). -/
def c1m1 : Master :=
  match submit_request initMaster c1Request 0 with
  | .ok m => m
  | .error _ => initMaster

/-- After the worker's heartbeat: the scheduling pass assigns `f1` to the
single endpoint, leaving `f2` pending. -/
def c1m2 : Master := worker_heartbeat c1m1 c1Heartbeat 1

/-- The worker reports the `f1` transfer as failed. -/
def c1Result : SyncResult :=
  ⟨"r-1", "w1", false, "transfer failed", 2, some "10.0.0.1"⟩

/-- The master after the failure report. -/
def c1m3 : Master := report_result c1m2 c1Result 2

/-- C1 counterexample: a reachable state in which a request's progress state
is FAILED while its `pending_files` deque is NOT empty — `report_result` on
`success = false` sets FAILED but leaves the remaining pending files in
place, so the claimed invariant fails after a worker-reported failure on a
request that still has other pending files. -/
theorem c1_counterexample :
    Reach c1m3
    ∧ (dictGet c1m3.requests "r-1").map
        (fun st => (st.progress.state, st.pending_files,
          st.active_assignments))
      = some ("FAILED", ["/a/src/f2"], [])
    ∧ (["/a/src/f2"] : List String) ≠ [] :=
  ⟨Reach.report c1Result 2
    (Reach.heartbeat c1Heartbeat 1
      (Reach.submit c1Request 0 Reach.init rfl)),
   by decide, by decide⟩

/-- C1 amended: the FAILED-implies-drained invariant holds exactly for
master-originated failures: `_fail_request` always leaves a FAILED request
with empty `pending_files` and `active_assignments`.  But when
`report_result` processes a `success = false` result for a known request, the
request becomes FAILED while its `pending_files` are retained unchanged and
only the matched assignment is removed from `active_assignments`. -/
theorem c1_failed_invariant_amended :
    (∀ (st : RequestState) (msg : String) (now : Nat),
        st.progress.state ≠ "FAILED" →
        (fail_request st msg now).1.progress.state = "FAILED"
        ∧ (fail_request st msg now).1.pending_files = []
        ∧ (fail_request st msg now).1.active_assignments = [])
    ∧ (∀ (m : Master) (res : SyncResult) (now : Nat) (st : RequestState),
        dictGet m.requests res.request_id = some st →
        res.success = false →
        ∃ st', dictGet (report_result m res now).requests res.request_id
            = some st'
          ∧ st'.progress.state = "FAILED"
          ∧ st'.pending_files = st.pending_files
          ∧ st'.active_assignments
              = dictPop st.active_assignments (reportAssignmentKey st res)) := by
  constructor
  · intro st msg now hstate
    have hfb : (st.progress.state == "FAILED") = false :=
      beq_eq_false_iff_ne.mpr hstate
    simp [fail_request, hfb]
  · intro m res now st hreq hfail
    simp only [report_result, hreq, hfail, Bool.false_eq_true, if_false,
      ne_eq, not_true_eq_false, and_false, ite_false]
    exact ⟨_, dictGet_dictSet_self _ _ _, rfl, rfl, rfl⟩

/-- The request's state in `c1m2`, just before the failure report. -/
def c1StPre : RequestState :=
  (dictGet c1m2.requests "r-1").getD
    ⟨c1Request, ⟨"r-1", 0, 0, 0, 0, "", []⟩, [], [], none⟩

/-- C1 witness: the amended theorem applied at the concrete trace state. -/
theorem c1_failed_invariant_amended_witness :
    ∃ st', dictGet (report_result c1m2 c1Result 2).requests "r-1" = some st'
      ∧ st'.progress.state = "FAILED"
      ∧ st'.pending_files = c1StPre.pending_files
      ∧ st'.active_assignments
          = dictPop c1StPre.active_assignments
              (reportAssignmentKey c1StPre c1Result) :=
  c1_failed_invariant_amended.2 c1m2 c1Result 2 c1StPre (by decide) rfl

/-! ## Claim C5 -/

/-- `n` consecutive `required = 1` calls to the round-robin policy over the
same candidate list, concatenating the picks and threading the policy
state. -/
def rrRun (last : Option String) (ws : List WorkerInterface) :
    Nat → List WorkerInterface
  | 0 => []
  | Nat.succ n =>
      (select_workers last ws 1).1 ++ rrRun (select_workers last ws 1).2 ws n

theorem startIndex_lt (last : Option String) (active : List WorkerInterface)
    (h : active ≠ []) : startIndex last active < active.length := by
  have hN : 0 < active.length := List.length_pos.mpr h
  cases last with
  | none => simpa [startIndex] using hN
  | some k =>
      cases hf : firstKeyIdx k active with
      | none => simpa [startIndex, hf] using hN
      | some idx =>
          simp only [startIndex, hf]
          exact Nat.mod_lt _ hN

theorem startIndex_some (k : String) (active : List WorkerInterface) :
    startIndex (some k) active
      = match firstKeyIdx k active with
        | some idx => (idx + 1) % active.length
        | none => 0 := rfl

theorem select_workers_one (last : Option String) (ws : List WorkerInterface)
    (h : sortByWorkerId ws ≠ []) :
    select_workers last ws 1
      = ([(sortByWorkerId ws).getD (startIndex last (sortByWorkerId ws))
            ⟨"", ""⟩],
         some ((sortByWorkerId ws).getD (startIndex last (sortByWorkerId ws))
            ⟨"", ""⟩).key) := by
  have hN : 0 < (sortByWorkerId ws).length := List.length_pos.mpr h
  have hemp : (sortByWorkerId ws).isEmpty = false := by
    cases hh : sortByWorkerId ws with
    | nil => exact absurd hh h
    | cons a l => rfl
  have hmin : min 1 (sortByWorkerId ws).length = 1 := Nat.min_eq_left hN
  have hr1 : List.range 1 = [0] := rfl
  have hmod : (startIndex last (sortByWorkerId ws) + 0)
        % (sortByWorkerId ws).length
      = startIndex last (sortByWorkerId ws) := by
    rw [Nat.add_zero]
    exact Nat.mod_eq_of_lt (startIndex_lt last _ h)
  simp only [select_workers, hemp, Bool.false_eq_true, if_false, hmin, hr1,
    List.map_cons, List.map_nil, hmod, List.getLast?_singleton]

theorem firstKeyIdx_get (active : List WorkerInterface)
    (hnd : (active.map WorkerInterface.key).Nodup) :
    ∀ (s : Nat) (hs : s < active.length),
      firstKeyIdx ((active.get ⟨s, hs⟩).key) active = some s := by
  induction active with
  | nil => intro s hs; simp at hs
  | cons a l ih =>
      intro s hs
      cases s with
      | zero => simp [firstKeyIdx]
      | succ s =>
          have hs' : s < l.length := by simpa using Nat.succ_lt_succ_iff.mp hs
          have hmem : (l.get ⟨s, hs'⟩).key ∈ l.map WorkerInterface.key :=
            List.mem_map_of_mem _ (l.get_mem _ _)
          rcases List.nodup_cons.mp hnd with ⟨hnotin, hnd'⟩
          have hane : (a.key == (l.get ⟨s, hs'⟩).key) = false := by
            simp only [beq_eq_false_iff_ne, ne_eq]
            intro hkey
            exact hnotin (hkey ▸ hmem)
          have hgc : (a :: l).get ⟨s + 1, hs⟩ = l.get ⟨s, hs'⟩ := rfl
          rw [hgc, firstKeyIdx, hane]
          rw [ih hnd' s hs']
          rfl

theorem startIndex_getD (ws : List WorkerInterface)
    (hnd : ((sortByWorkerId ws).map WorkerInterface.key).Nodup)
    (s : Nat) (hs : s < (sortByWorkerId ws).length) :
    startIndex (some (((sortByWorkerId ws).getD s ⟨"", ""⟩).key))
        (sortByWorkerId ws)
      = (s + 1) % (sortByWorkerId ws).length := by
  have hgetD : (sortByWorkerId ws).getD s ⟨"", ""⟩
      = (sortByWorkerId ws).get ⟨s, hs⟩ := by
    rw [List.getD_eq_getElem _ _ hs]
    rfl
  rw [hgetD, startIndex_some, firstKeyIdx_get (sortByWorkerId ws) hnd s hs]

theorem map_range_shift (l : List WorkerInterface) (s : Nat) (n : Nat) :
    List.map (fun i =>
        l.getD (((s + 1) % l.length + 1 + i) % l.length) ⟨"", ""⟩)
        (List.range n)
      = List.map ((fun i => l.getD ((s + 1 + i) % l.length) ⟨"", ""⟩)
          ∘ Nat.succ) (List.range n) := by
  apply List.map_congr_left
  intro i _
  simp only [Function.comp_apply]
  congr 1
  rw [Nat.add_assoc ((s + 1) % l.length) 1 i, Nat.mod_add_mod]
  congr 1
  omega

theorem map_range_shift2 (l : List WorkerInterface) (s : Nat) (n : Nat) :
    List.map (fun i => l.getD ((s + 1 + i) % l.length) ⟨"", ""⟩)
        (List.range n)
      = List.map ((fun i => l.getD ((s + i) % l.length) ⟨"", ""⟩)
          ∘ Nat.succ) (List.range n) := by
  apply List.map_congr_left
  intro i _
  simp only [Function.comp_apply]
  congr 2
  omega

theorem rrRun_from (ws : List WorkerInterface)
    (hnd : ((sortByWorkerId ws).map WorkerInterface.key).Nodup)
    (hne : sortByWorkerId ws ≠ []) :
    ∀ (n s : Nat), s < (sortByWorkerId ws).length →
      rrRun (some ((sortByWorkerId ws).getD s ⟨"", ""⟩).key) ws n
        = (List.range n).map (fun i =>
            (sortByWorkerId ws).getD
              ((s + 1 + i) % (sortByWorkerId ws).length) ⟨"", ""⟩) := by
  intro n
  induction n with
  | zero => intro s hs; simp [rrRun]
  | succ n ih =>
      intro s hs
      have hN : 0 < (sortByWorkerId ws).length := List.length_pos.mpr hne
      have hs' : (s + 1) % (sortByWorkerId ws).length
          < (sortByWorkerId ws).length := Nat.mod_lt _ hN
      rw [rrRun, select_workers_one _ ws hne,
        startIndex_getD ws hnd s hs, ih _ hs']
      rw [List.range_succ_eq_map]
      simp only [List.map_cons, List.map_map, List.singleton_append]
      rw [map_range_shift]

theorem range_map_getD_rotate (l : List WorkerInterface) (s : Nat) :
    ∀ _ : s < l.length,
    (List.range l.length).map (fun i => l.getD ((s + i) % l.length) ⟨"", ""⟩)
      = l.rotate s := by
  intro hs
  have hN : 0 < l.length := by omega
  apply List.ext_getElem
  · simp
  · intro k h1 h2
    simp only [List.getElem_map, List.getElem_range]
    rw [List.getElem_rotate]
    rw [List.getD_eq_getElem _ _ (Nat.mod_lt _ hN)]
    congr 1
    rw [Nat.add_comm]

theorem rrRun_succ_eq_map (rr0 : Option String) (ws : List WorkerInterface)
    (hnd : ((sortByWorkerId ws).map WorkerInterface.key).Nodup)
    (hne : sortByWorkerId ws ≠ []) (n : Nat) :
    rrRun rr0 ws (n + 1)
      = (List.range (n + 1)).map (fun i =>
          (sortByWorkerId ws).getD
            ((startIndex rr0 (sortByWorkerId ws) + i)
              % (sortByWorkerId ws).length) ⟨"", ""⟩) := by
  have hN : 0 < (sortByWorkerId ws).length := List.length_pos.mpr hne
  have hs0 : startIndex rr0 (sortByWorkerId ws) < (sortByWorkerId ws).length :=
    startIndex_lt rr0 _ hne
  rw [rrRun, select_workers_one rr0 ws hne, rrRun_from ws hnd hne n _ hs0]
  rw [List.range_succ_eq_map]
  simp only [List.map_cons, List.map_map, List.singleton_append]
  rw [map_range_shift2]
  congr 1
  simp [Nat.mod_eq_of_lt hs0]

theorem rrRun_eq_rotate (rr0 : Option String) (ws : List WorkerInterface)
    (hnd : ((sortByWorkerId ws).map WorkerInterface.key).Nodup)
    (hne : sortByWorkerId ws ≠ []) :
    rrRun rr0 ws (sortByWorkerId ws).length
      = (sortByWorkerId ws).rotate (startIndex rr0 (sortByWorkerId ws)) := by
  have hs0 : startIndex rr0 (sortByWorkerId ws) < (sortByWorkerId ws).length :=
    startIndex_lt rr0 _ hne
  obtain ⟨n, hn⟩ : ∃ n, (sortByWorkerId ws).length = n + 1 := by
    have hN : 0 < (sortByWorkerId ws).length := List.length_pos.mpr hne
    exact ⟨(sortByWorkerId ws).length - 1, by omega⟩
  calc rrRun rr0 ws (sortByWorkerId ws).length
      = rrRun rr0 ws (n + 1) := by rw [hn]
    _ = (List.range (n + 1)).map (fun i =>
          (sortByWorkerId ws).getD
            ((startIndex rr0 (sortByWorkerId ws) + i)
              % (sortByWorkerId ws).length) ⟨"", ""⟩) :=
        rrRun_succ_eq_map rr0 ws hnd hne n
    _ = (List.range (sortByWorkerId ws).length).map (fun i =>
          (sortByWorkerId ws).getD
            ((startIndex rr0 (sortByWorkerId ws) + i)
              % (sortByWorkerId ws).length) ⟨"", ""⟩) := by rw [← hn]
    _ = (sortByWorkerId ws).rotate (startIndex rr0 (sortByWorkerId ws)) :=
        range_map_getD_rotate (sortByWorkerId ws)
          (startIndex rr0 (sortByWorkerId ws)) hs0

/-- C5: for every non-empty candidate list of `N` endpoints with pairwise
distinct endpoint keys and every initial internal state of the round-robin
policy, `N` consecutive `select_workers` calls with that same candidate list
and `required = 1` return every endpoint of the list exactly once (the run is
a permutation of the candidates and each endpoint has count 1). -/
theorem c5_round_robin_cycle (ws : List WorkerInterface) (rr0 : Option String)
    (hne : ws ≠ [])
    (hnd : (ws.map WorkerInterface.key).Nodup) :
    (rrRun rr0 ws ws.length).Perm ws
    ∧ ∀ e ∈ ws, (rrRun rr0 ws ws.length).count e = 1 := by
  have hperm : (sortByWorkerId ws).Perm ws := insSort_perm wiLe ws
  have hsne : sortByWorkerId ws ≠ [] := by
    intro h
    rw [h] at hperm
    exact hne hperm.nil_eq.symm
  have hlen : (sortByWorkerId ws).length = ws.length := hperm.length_eq
  have hndsort : ((sortByWorkerId ws).map WorkerInterface.key).Nodup :=
    ((hperm.map WorkerInterface.key).nodup_iff).mpr hnd
  have hrot := rrRun_eq_rotate rr0 ws hndsort hsne
  rw [← hlen, hrot]
  have hperm2 : ((sortByWorkerId ws).rotate
      (startIndex rr0 (sortByWorkerId ws))).Perm ws :=
    (List.rotate_perm _ _).trans hperm
  refine ⟨hperm2, fun e he => ?_⟩
  have hwnd : ws.Nodup := List.Nodup.of_map _ hnd
  rw [hperm2.count_eq e]
  exact List.count_eq_one_of_mem hwnd he

/-- The three endpoints of the repository's scheduler test. -/
def c5Candidates : List WorkerInterface :=
  [⟨"worker-a", "192.168.1.10"⟩, ⟨"worker-b", "192.168.1.11"⟩,
   ⟨"worker-c", "192.168.1.12"⟩]

/-- C5 witness: the theorem applied to the test's three endpoints starting
from a mid-rotation policy state. -/
theorem c5_round_robin_cycle_witness :
    (rrRun (some "worker-b::192.168.1.11") c5Candidates
        c5Candidates.length).Perm c5Candidates
    ∧ ∀ e ∈ c5Candidates,
        (rrRun (some "worker-b::192.168.1.11") c5Candidates
          c5Candidates.length).count e = 1 :=
  c5_round_robin_cycle c5Candidates (some "worker-b::192.168.1.11")
    (by decide) (by decide)

/-! ## Claim C6 -/

/-- Two endpoints of the same worker, given in descending address order. -/
def c6ifaceB : WorkerInterface := ⟨"w", "b"⟩

/-- The same-worker endpoint with the smaller address. -/
def c6ifaceA : WorkerInterface := ⟨"w", "a"⟩

/-- C6 counterexample: `select_workers` sorts candidates by `worker_id` only
— ties are NOT broken by address.  For the input `[("w","b"), ("w","a")]`
(same worker, descending addresses) the sorted sequence keeps the larger
address first, and the first pick is the larger address, contradicting the
claimed ascending tie-break. -/
theorem c6_counterexample :
    sortByWorkerId [c6ifaceB, c6ifaceA] = [c6ifaceB, c6ifaceA]
    ∧ (select_workers none [c6ifaceB, c6ifaceA] 1).1 = [c6ifaceB]
    ∧ strLeB c6ifaceA.address c6ifaceB.address = true
    ∧ c6ifaceA.address ≠ c6ifaceB.address
    ∧ sortByWorkerId [c6ifaceB, c6ifaceA] ≠ [c6ifaceA, c6ifaceB] := by decide

/-- C6 amended: `select_workers` first sorts the candidates by `worker_id`
only, using a stable sort: the result is a permutation of the input that is
non-decreasing in `worker_id`, and endpoints with equal `worker_id` keep
their input order — so for an input with two same-worker endpoints in
descending address order, the larger address stays first. -/
theorem c6_sort_amended :
    (∀ ws : List WorkerInterface,
        (sortByWorkerId ws).Perm ws
        ∧ (sortByWorkerId ws).Pairwise (fun a b => wiLe a b = true))
    ∧ sortByWorkerId [c6ifaceB, c6ifaceA] = [c6ifaceB, c6ifaceA] := by
  refine ⟨fun ws => ⟨insSort_perm wiLe ws,
    insSort_pairwise wiLe wiLe_total wiLe_trans ws⟩, by decide⟩

end DMS
